import Mathlib

/-!
# Event registry of `events.go`

A shallow embedding of the price-alert rule registry: `AddEvent`, `RemoveEvent`,
`GetEventCounter`, `ExecuteAction`, `EventToString`, `CheckCondition`, `IsValidEvent`
and one iteration of the `CheckEvents` loop.

Conventions of the embedding.

* The global slice `Events []*Event` is a `List Event` threaded through every operation.
* A run-time panic (slice index out of range) is the result `none`.
* Go `float64` values are `F64`: the finite ones are the rationals they denote, next to
  `NaN` and the two infinities; comparisons follow IEEE 754.
* Calls that leave the program (SMS transport, log sink) are recorded in a trace of `Call`s.
* Collaborators of the file that live elsewhere (`bot.exchanges`, the SMS contact lookup,
  the ticker, `strconv.ParseFloat`) are the fields of `Env`.
-/

namespace Events

/-! ## Constants -/

def ITEM_PRICE : String := "PRICE"
def GREATER_THAN : String := ">"
def GREATER_THAN_OR_EQUAL : String := ">="
def LESS_THAN : String := "<"
def LESS_THAN_OR_EQUAL : String := "<="
def IS_EQUAL : String := "=="
def ACTION_SMS_NOTIFY : String := "SMS"
def ACTION_CONSOLE_PRINT : String := "CONSOLE_PRINT"

/-- The error values declared in the `var` block; Go's `nil` error is `none : Option Err`. -/
inductive Err where
  | ErrInvalidItem
  | ErrInvalidCondition
  | ErrInvalidAction
  | ErrExchangeDisabled
  | ErrFiatCurrencyInvalid
  deriving DecidableEq

/-! ## Floating point values -/

/-- A `float64` value: `fin q` is the finite value denoting the rational `q`
(both signed zeros are `fin 0`). -/
inductive F64 where
  | nan
  | ninf
  | fin (q : ℚ)
  | pinf
  deriving DecidableEq

namespace F64

/-- IEEE `<`: false as soon as one side is `NaN`. -/
def lt : F64 → F64 → Bool
  | nan, _ => false
  | _, nan => false
  | ninf, ninf => false
  | ninf, _ => true
  | fin _, ninf => false
  | fin a, fin b => decide (a < b)
  | fin _, pinf => true
  | pinf, _ => false

/-- IEEE `==`: false as soon as one side is `NaN`. -/
def eq : F64 → F64 → Bool
  | nan, _ => false
  | _, nan => false
  | a, b => decide (a = b)

/-- IEEE `<=`. -/
def le (a b : F64) : Bool := lt a b || eq a b

/-- IEEE `>`. -/
def gt (a b : F64) : Bool := lt b a

/-- IEEE `>=`. -/
def ge (a b : F64) : Bool := le b a

/-- The constant `0`. -/
def zero : F64 := fin 0

end F64

/-! ## Data model -/

/-- The struct `Event`. -/
structure Event where
  ID : Int
  Exchange : String
  Item : String
  Condition : String
  FirstCurrency : String
  SecondCurrency : String
  Action : String
  Executed : Bool
  deriving DecidableEq

/-- An element of `bot.exchanges`, seen through `GetName()` and `IsEnabled()`. -/
structure ExchangeInfo where
  Name : String
  Enabled : Bool
  deriving DecidableEq

/-- The price record read by `CheckCondition`; only the field `Last` is used. -/
structure TickerPrice where
  Last : F64

/-- A ticker: the nested map `Price[first][second]`, as association lists. -/
structure Ticker where
  Price : List (String × List (String × TickerPrice))

/-- Reading a Go map: the first binding of the key, the zero value when absent. -/
def mapGet {β : Type} (zero : β) (m : List (String × β)) (k : String) : β :=
  match m.find? (fun kv => kv.1 == k) with
  | some kv => kv.2
  | none => zero

/-- The expression `ticker.Price[first][second].Last`. -/
def Ticker.last (t : Ticker) (first second : String) : F64 :=
  (mapGet (TickerPrice.mk F64.zero) (mapGet [] t.Price first) second).Last

/-- The collaborators of `events.go` that are defined outside the file. -/
structure Env where
  /-- The slice `bot.exchanges`. -/
  exchanges : List ExchangeInfo
  /-- The contact lookup `SMSGetNumberByName`. -/
  SMSGetNumberByName : String → String
  /-- The sentinel `ErrSMSContactNotFound` the lookup returns for an unknown name. -/
  ErrSMSContactNotFound : String
  /-- The call `strconv.ParseFloat(s, 64)`: the value, and whether the error is non-nil. -/
  ParseFloat : String → F64 × Bool
  /-- The ticker lookup `GetTickerByExchange`; `none` is a non-nil error. -/
  GetTickerByExchange : String → Option Ticker

/-- A call that leaves the program, or the entry into one of the two methods
whose invocation the specification talks about. -/
inductive Call where
  | CheckCondition
  | ExecuteAction
  | SMSSendToAll (message : String)
  | SMSNotify (number message : String)
  | logPrintf (message : String)
  deriving DecidableEq

/-! ## String helpers

`StringContains` and `SplitStrings` wrap Go's `strings.Contains` and `strings.Split`. -/

/-- Whether `sep` occurs in `s` at some position. -/
def containsChars (sep : List Char) : List Char → Bool
  | [] => sep.isEmpty
  | c :: cs => sep.isPrefixOf (c :: cs) || containsChars sep cs

/-- The helper `StringContains(s, substr)`. -/
def StringContains (s substr : String) : Bool :=
  containsChars substr.toList s.toList

/-- Splitting at every non-overlapping occurrence of a non-empty `sep`, left to right;
`skip` counts the characters of a matched separator still to be dropped. -/
def splitChars (sep : List Char) : Nat → List Char → List (List Char)
  | _, [] => [[]]
  | skip + 1, _ :: cs => splitChars sep skip cs
  | 0, c :: cs =>
    if sep.isPrefixOf (c :: cs) then
      [] :: splitChars sep (sep.length - 1) cs
    else
      match splitChars sep 0 cs with
      | [] => [[c]]
      | h :: t => (c :: h) :: t

/-- The helper `SplitStrings(s, sep)`: with an empty separator the string is
exploded into its characters. -/
def SplitStrings (s sep : String) : List String :=
  if sep.toList.isEmpty then s.toList.map (fun c => String.mk [c])
  else (splitChars sep.toList 0 s.toList).map String.mk

/-- Indexing a slice: `none` is the index-out-of-range panic. -/
def idx {α : Type} (xs : List α) (i : Nat) : Option α := xs.get? i

/-! ## Validation -/

def IsValidExchange (env : Env) (Exchange : String) : Bool :=
  env.exchanges.any (fun x => x.Name == Exchange && x.Enabled)

def IsValidCondition (Condition : String) : Bool :=
  Condition == GREATER_THAN || Condition == GREATER_THAN_OR_EQUAL ||
  Condition == LESS_THAN || Condition == LESS_THAN_OR_EQUAL || Condition == IS_EQUAL

def IsValidAction (Action : String) : Bool :=
  Action == ACTION_SMS_NOTIFY || Action == ACTION_CONSOLE_PRINT

def IsValidItem (Item : String) : Bool :=
  Item == ITEM_PRICE

/-- The function `IsValidEvent`; the inner `Option` is the returned `error`. -/
def IsValidEvent (env : Env) (Exchange Item Condition Action : String) : Option (Option Err) :=
  if !IsValidExchange env Exchange then some (some Err.ErrExchangeDisabled)
  else if !IsValidItem Item then some (some Err.ErrInvalidItem)
  else if !StringContains Condition "," then some (some Err.ErrInvalidCondition)
  else
    let condition := SplitStrings Condition ","
    (idx condition 0).bind fun c0 =>
    if !IsValidCondition c0 then some (some Err.ErrInvalidCondition)
    else
    (idx condition 1).bind fun c1 =>
    if c1.length == 0 then some (some Err.ErrInvalidCondition)
    else if StringContains Action "," then
      let action := SplitStrings Action ","
      (idx action 0).bind fun a0 =>
      if a0 != ACTION_SMS_NOTIFY then some (some Err.ErrInvalidAction)
      else
      (idx action 1).bind fun a1 =>
      if a1 != "ALL" && env.SMSGetNumberByName a1 == env.ErrSMSContactNotFound then
        some (some Err.ErrInvalidAction)
      else some none
    else if Action != ACTION_CONSOLE_PRINT then some (some Err.ErrInvalidAction)
    else some none

/-! ## The registry -/

/-- The function `AddEvent`: the returned pair `(int, error)` and the new value of `Events`. -/
def AddEvent (env : Env) (Events : List Event)
    (Exchange Item Condition FirstCurrency SecondCurrency Action : String) :
    Option ((Int × Option Err) × List Event) :=
  (IsValidEvent env Exchange Item Condition Action).bind fun err =>
  match err with
  | some e => some ((0, some e), Events)
  | none =>
    let ID : Int := if Events.length == 0 then 0 else (Events.length : Int) + 1
    let Event : Event :=
      { ID := ID, Exchange := Exchange, Item := Item, Condition := Condition,
        FirstCurrency := FirstCurrency, SecondCurrency := SecondCurrency,
        Action := Action, Executed := false }
    some ((Event.ID, none), Events ++ [Event])

/-- The loop of `RemoveEvent` from index `i` on, `rest` being `Events[i:]`. -/
def removeLoop (EventID : Int) (Events : List Event) : Nat → List Event → Bool × List Event
  | _, [] => (false, Events)
  | i, x :: rest =>
    if x.ID == EventID then (true, Events.take i ++ Events.drop (i + 1))
    else removeLoop EventID Events (i + 1) rest

/-- The function `RemoveEvent`: the returned flag and the new value of `Events`. -/
def RemoveEvent (Events : List Event) (EventID : Int) : Bool × List Event :=
  removeLoop EventID Events 0 Events

/-- The function `GetEventCounter`. -/
def GetEventCounter (Events : List Event) : Int × Int :=
  let total : Int := Events.length
  let executed : Int := Events.foldl (fun n x => if x.Executed then n + 1 else n) 0
  (total, executed)

/-! ## Rendering and dispatch -/

/-- The method `EventToString`. -/
def EventToString (e : Event) : Option String :=
  let condition := SplitStrings e.Condition ","
  (idx condition 0).bind fun c0 =>
  (idx condition 1).bind fun c1 =>
  some ("If the " ++ e.FirstCurrency ++ e.SecondCurrency ++ " " ++ e.Item ++ " on " ++
    e.Exchange ++ " is " ++ (c0 ++ " " ++ c1) ++ " then " ++ e.Action ++ ".")

/-- The method `ExecuteAction`: the returned flag and the calls made, the first of
which marks the entry into the method. -/
def ExecuteAction (env : Env) (e : Event) : Option (Bool × List Call) :=
  if StringContains e.Action "," then
    let action := SplitStrings e.Action ","
    (idx action 0).bind fun a0 =>
    if a0 == ACTION_SMS_NOTIFY then
      (EventToString e).bind fun s =>
      let message := "Event triggered: " ++ s
      (idx action 1).bind fun a1 =>
      if a1 == "ALL" then
        some (true, [Call.ExecuteAction, Call.SMSSendToAll message])
      else
        some (true, [Call.ExecuteAction, Call.SMSNotify (env.SMSGetNumberByName a1) message])
    else some (true, [Call.ExecuteAction])
  else
    (EventToString e).bind fun s =>
    some (true, [Call.ExecuteAction, Call.logPrintf ("Event triggered: " ++ s)])

/-! ## Evaluation -/

/-- The tail call `return e.ExecuteAction()` of `CheckCondition`. -/
def returnExecuteAction (env : Env) (e : Event) : Option (Bool × List Call) :=
  (ExecuteAction env e).map fun r => (r.1, Call.CheckCondition :: r.2)

/-- The method `CheckCondition`: the returned flag and the calls made, the first of
which marks the entry into the method. -/
def CheckCondition (env : Env) (e : Event) : Option (Bool × List Call) :=
  let condition := SplitStrings e.Condition ","
  (idx condition 1).bind fun c1 =>
  let targetPrice := (env.ParseFloat c1).1
  match env.GetTickerByExchange e.Exchange with
  | none => some (false, [Call.CheckCondition])
  | some ticker =>
    let lastPrice := ticker.last e.FirstCurrency e.SecondCurrency
    if F64.eq lastPrice F64.zero then some (false, [Call.CheckCondition])
    else
    (idx condition 0).bind fun c0 =>
    if c0 == GREATER_THAN then
      if F64.gt lastPrice targetPrice then returnExecuteAction env e
      else some (false, [Call.CheckCondition])
    else if c0 == GREATER_THAN_OR_EQUAL then
      if F64.ge lastPrice targetPrice then returnExecuteAction env e
      else some (false, [Call.CheckCondition])
    else if c0 == LESS_THAN then
      if F64.lt lastPrice targetPrice then returnExecuteAction env e
      else some (false, [Call.CheckCondition])
    else if c0 == LESS_THAN_OR_EQUAL then
      if F64.le lastPrice targetPrice then returnExecuteAction env e
      else some (false, [Call.CheckCondition])
    else if c0 == IS_EQUAL then
      if F64.eq lastPrice targetPrice then returnExecuteAction env e
      else some (false, [Call.CheckCondition])
    else some (false, [Call.CheckCondition])

/-- What one pass over `Events` leaves behind: the registry, the calls made, each with
the slice index of the rule it was made for, and whether the pass ended in a panic. -/
structure CycleResult where
  Events : List Event
  trace : List (Nat × Call)
  panicked : Bool

/-- The inner loop `for _, event := range Events` of `CheckEvents`, from index `i` on. -/
def checkLoop (env : Env) : Nat → List Event → CycleResult
  | _, [] => { Events := [], trace := [], panicked := false }
  | i, event :: rest =>
    if !event.Executed then
      match CheckCondition env event with
      | none => { Events := event :: rest, trace := [], panicked := true }
      | some (success, calls) =>
        let r := checkLoop env (i + 1) rest
        if success then
          { Events := { event with Executed := true } :: r.Events
            trace := calls.map (fun c => (i, c)) ++
              (i, Call.logPrintf ("Event " ++ toString event.ID ++ " triggered on " ++
                event.Exchange ++ " successfully.\n")) :: r.trace
            panicked := r.panicked }
        else
          { Events := event :: r.Events
            trace := calls.map (fun c => (i, c)) ++ r.trace
            panicked := r.panicked }
    else
      let r := checkLoop env (i + 1) rest
      { Events := event :: r.Events, trace := r.trace, panicked := r.panicked }

/-- One iteration of the body of the endless loop in `CheckEvents`. -/
def CheckEventsCycle (env : Env) (Events : List Event) : CycleResult :=
  let (total, executed) := GetEventCounter Events
  if total > 0 && executed != total then checkLoop env 0 Events
  else { Events := Events, trace := [], panicked := false }

/-- A run of `CheckEvents`: one iteration per element of `envs`, the collaborators seen
by that iteration; the run stops at a panic. -/
def runCycles : List Env → List Event → CycleResult
  | [], Events => { Events := Events, trace := [], panicked := false }
  | env :: envs, Events =>
    let r := CheckEventsCycle env Events
    if r.panicked then r
    else
      let r2 := runCycles envs r.Events
      { Events := r2.Events, trace := r.trace ++ r2.trace, panicked := r2.panicked }

/-! ## Specification-side notions and sample data -/

/-- The comparison `p op t` as the specification words it: one of the five
operators applied to the last price and the threshold; no other token is an operator. -/
def opHolds (op : String) (p t : F64) : Bool :=
  if op = ">" then F64.gt p t
  else if op = ">=" then F64.ge p t
  else if op = "<" then F64.lt p t
  else if op = "<=" then F64.le p t
  else if op = "==" then F64.eq p t
  else false

/-- The two calls of the registry API that change `Events`. -/
inductive RegistryOp where
  | add (Exchange Item Condition FirstCurrency SecondCurrency Action : String)
  | remove (EventID : Int)

/-- One API call on the registry; `none` is a panic. -/
def applyOp (env : Env) (Events : List Event) : RegistryOp → Option (List Event)
  | RegistryOp.add x i c f s a => (AddEvent env Events x i c f s a).map fun r => r.2
  | RegistryOp.remove n => some (RemoveEvent Events n).2

/-- A sequence of API calls, left to right. -/
def applyOps (env : Env) : List Event → List RegistryOp → Option (List Event)
  | Events, [] => some Events
  | Events, op :: ops => (applyOp env Events op).bind fun Events2 => applyOps env Events2 ops

/-- A stand-in for `strconv.ParseFloat` that agrees with it on the tokens used in the
examples: `"0"`, `"5"`, `"50"`, `"100"` and `"200"` parse to these numbers, and a malformed token
such as `"abc"` yields the value `0` together with an error. -/
def sampleParseFloat (s : String) : F64 × Bool :=
  if s = "0" then (F64.fin 0, false)
  else if s = "5" then (F64.fin 5, false)
  else if s = "50" then (F64.fin 50, false)
  else if s = "100" then (F64.fin 100, false)
  else if s = "200" then (F64.fin 200, false)
  else (F64.fin 0, true)

/-- Sample collaborators: the exchange `Bitstamp` is enabled, `Kraken` is disabled, the
contact `bob` is known, and the ticker of `Bitstamp` lists `BTC/USD` at the given price. -/
def sampleEnv (last : F64) : Env where
  exchanges := [ExchangeInfo.mk "Kraken" false, ExchangeInfo.mk "Bitstamp" true]
  SMSGetNumberByName := fun name => if name = "bob" then "+100200300" else "SMS Contact not found."
  ErrSMSContactNotFound := "SMS Contact not found."
  ParseFloat := sampleParseFloat
  GetTickerByExchange := fun x =>
    if x = "Bitstamp" then some (Ticker.mk [("BTC", [("USD", TickerPrice.mk last)])]) else none

/-- A sample rule on `Bitstamp` for `BTC/USD` that prints to the console. -/
def sampleRule (ID : Int) (Condition : String) (Executed : Bool) : Event where
  ID := ID
  Exchange := "Bitstamp"
  Item := "PRICE"
  Condition := Condition
  FirstCurrency := "BTC"
  SecondCurrency := "USD"
  Action := "CONSOLE_PRINT"
  Executed := Executed

/-- How often the trace records an entry into `ExecuteAction` for the rule at index `i`. -/
def dispatches (i : Nat) (trace : List (Nat × Call)) : Nat :=
  trace.countP fun x => decide (x = (i, Call.ExecuteAction))

/-! ## Specification-side notions for validation, cycles and reachability -/

/-- The five operator tokens the specification accepts. -/
def isOperator (s : String) : Prop :=
  s = ">" ∨ s = ">=" ∨ s = "<" ∨ s = "<=" ∨ s = "=="

/-- An exchange that the exchange list reports as known and enabled. -/
def exchangeEnabled (env : Env) (Exchange : String) : Prop :=
  ∃ x ∈ env.exchanges, x.Name = Exchange ∧ x.Enabled = true

/-- A rule as the specification wants it stored: item `PRICE`, a condition whose first
token is an operator and whose second token is not empty, and an action that is either
`CONSOLE_PRINT` or `SMS` followed by the target `ALL` or by a contact that resolves. -/
def ruleValid (env : Env) (e : Event) : Prop :=
  e.Item = "PRICE" ∧
  (∃ c0 c1 rest, SplitStrings e.Condition "," = c0 :: c1 :: rest ∧ isOperator c0 ∧ c1 ≠ "") ∧
  (e.Action = "CONSOLE_PRINT" ∨
    ∃ target rest, SplitStrings e.Action "," = "SMS" :: target :: rest ∧
      (target = "ALL" ∨ env.SMSGetNumberByName target ≠ env.ErrSMSContactNotFound))

/-- Whether the condition of a rule matches the current price, as the specification
describes the evaluation: the price feed answers, the last price is not zero, and the
last price compares to the threshold as the operator says; the threshold is the value
`ParseFloat` yields for the second token. -/
def conditionMatches (env : Env) (e : Event) : Bool :=
  match idx (SplitStrings e.Condition ",") 0, idx (SplitStrings e.Condition ",") 1,
      env.GetTickerByExchange e.Exchange with
  | some op, some thr, some ticker =>
    !(F64.eq (ticker.last e.FirstCurrency e.SecondCurrency) F64.zero) &&
      opHolds op (ticker.last e.FirstCurrency e.SecondCurrency) (env.ParseFloat thr).1
  | _, _, _ => false

/-- The slice indices, in trace order, at which `ExecuteAction` was entered. -/
def dispatchOrder (trace : List (Nat × Call)) : List Nat :=
  (trace.filter fun x => decide (x.2 = Call.ExecuteAction)).map Prod.fst

/-- The slice indices, in registry order, of the rules that are not executed and whose
condition matches; `k` is the index of the first rule of the list. -/
def pendingMatches (env : Env) (k : Nat) (Events : List Event) : List Nat :=
  ((Events.enumFrom k).filter fun p => !p.2.Executed && conditionMatches env p.2).map Prod.fst

/-- What a cycle does to one rule according to the specification: the flag is set when
the rule is pending and its condition matches, and nothing else changes. -/
def markExecuted (env : Env) (e : Event) : Event :=
  if !e.Executed && conditionMatches env e then { e with Executed := true } else e

/-- The operations on the registry: the two API calls and one evaluation cycle, the
latter with the collaborators (price feed) it sees. -/
inductive SystemOp where
  | add (Exchange Item Condition FirstCurrency SecondCurrency Action : String)
  | remove (EventID : Int)
  | cycle (feed : Env)

/-- One operation on the registry; `none` is a panic. Registration validates against the
fixed collaborators `env`. -/
def stepSystem (env : Env) (Events : List Event) : SystemOp → Option (List Event)
  | SystemOp.add x i c f s a => (AddEvent env Events x i c f s a).map fun r => r.2
  | SystemOp.remove n => some (RemoveEvent Events n).2
  | SystemOp.cycle feed =>
    if (CheckEventsCycle feed Events).panicked then none
    else some (CheckEventsCycle feed Events).Events

/-- A sequence of operations, left to right. -/
def runSystem (env : Env) : List Event → List SystemOp → Option (List Event)
  | Events, [] => some Events
  | Events, op :: ops => (stepSystem env Events op).bind fun Events2 => runSystem env Events2 ops

/-- The arguments of one `AddEvent` call. -/
structure AddArgs where
  Exchange : String
  Item : String
  Condition : String
  FirstCurrency : String
  SecondCurrency : String
  Action : String

/-- A sequence of `AddEvent` calls: the ids returned, in call order, and the final registry. -/
def addMany (env : Env) : List Event → List AddArgs → Option (List Int × List Event)
  | Events, [] => some ([], Events)
  | Events, a :: rest =>
    (AddEvent env Events a.Exchange a.Item a.Condition a.FirstCurrency a.SecondCurrency
      a.Action).bind fun r =>
    (addMany env r.2 rest).map fun p => (r.1.1 :: p.1, p.2)

/-- Sample collaborators with an empty contact directory: every lookup fails. -/
def emptyDirectoryEnv : Env where
  exchanges := [ExchangeInfo.mk "Bitstamp" true]
  SMSGetNumberByName := fun _ => "SMS Contact not found."
  ErrSMSContactNotFound := "SMS Contact not found."
  ParseFloat := sampleParseFloat
  GetTickerByExchange := fun _ => none

/-- Two rules that differ at most in that the flag `Executed` went from unset to set. -/
def flagOnly (e e2 : Event) : Prop :=
  e2 = e ∨ (e.Executed = false ∧ e2 = { e with Executed := true })

/-- The id `AddEvent` hands out when the registry holds `n` rules. -/
def idAt (n : Nat) : Int := if n = 0 then 0 else (n : Int) + 1

/-! ## Lemmas

### Strings -/

theorem comma_toList : (",".toList : List Char) = [','] := rfl

theorem containsChars_comma (cs : List Char) :
    containsChars [','] cs = true ↔ ',' ∈ cs := by
  induction cs with
  | nil => simp [containsChars]
  | cons c cs ih =>
    simp only [containsChars, Bool.or_eq_true, ih, List.mem_cons]
    constructor
    · rintro (h | h)
      · left
        simpa [List.isPrefixOf] using h
      · exact Or.inr h
    · rintro (h | h)
      · left
        subst h
        simp [List.isPrefixOf]
      · exact Or.inr h

theorem splitChars_comma_ne_nil (cs : List Char) : splitChars [','] 0 cs ≠ [] := by
  cases cs with
  | nil => simp [splitChars]
  | cons c cs =>
    simp only [splitChars]
    split
    · simp
    · split <;> simp

theorem splitChars_comma_of_not_mem (cs : List Char) (h : ',' ∉ cs) :
    splitChars [','] 0 cs = [cs] := by
  induction cs with
  | nil => simp [splitChars]
  | cons c cs ih =>
    simp only [List.mem_cons, not_or] at h
    have hc : c ≠ ',' := fun hc => h.1 hc.symm
    simp [splitChars, List.isPrefixOf, ih h.2, Ne.symm hc]

theorem splitChars_comma_of_mem (cs : List Char) (h : ',' ∈ cs) :
    ∃ a b rest, splitChars [','] 0 cs = a :: b :: rest := by
  induction cs with
  | nil => simp at h
  | cons c cs ih =>
    by_cases hc : ',' = c
    · subst hc
      obtain ⟨x, xs, hx⟩ := List.exists_cons_of_ne_nil (splitChars_comma_ne_nil cs)
      exact ⟨[], x, xs, by simp [splitChars, List.isPrefixOf, hx]⟩
    · have h2 : ',' ∈ cs := by
        rcases List.mem_cons.1 h with h | h
        · exact absurd h hc
        · exact h
      obtain ⟨a, b, rest, hab⟩ := ih h2
      exact ⟨c :: a, b, rest, by simp [splitChars, List.isPrefixOf, hc, hab]⟩

theorem StringContains_comma (s : String) :
    StringContains s "," = true ↔ ',' ∈ s.data := by
  simp [StringContains, comma_toList, containsChars_comma]

theorem SplitStrings_comma (s : String) :
    SplitStrings s "," = (splitChars [','] 0 s.data).map String.mk := by
  simp [SplitStrings, comma_toList]

theorem SplitStrings_of_contains (s : String) (h : StringContains s "," = true) :
    ∃ a b rest, SplitStrings s "," = a :: b :: rest := by
  rw [StringContains_comma] at h
  obtain ⟨a, b, rest, hab⟩ := splitChars_comma_of_mem _ h
  exact ⟨String.mk a, String.mk b, rest.map String.mk, by simp [SplitStrings_comma, hab]⟩

theorem SplitStrings_of_not_contains (s : String) (h : StringContains s "," = false) :
    SplitStrings s "," = [s] := by
  have h2 : ',' ∉ s.data := by
    intro hm
    rw [← StringContains_comma, h] at hm
    exact Bool.noConfusion hm
  simp [SplitStrings_comma, splitChars_comma_of_not_mem _ h2]

/-! ### Rendering, dispatch and the condition switch -/

theorem idx_zero_cons {α : Type} (a : α) (l : List α) : idx (a :: l) 0 = some a := rfl

theorem idx_one_cons {α : Type} (a b : α) (l : List α) : idx (a :: b :: l) 1 = some b := rfl

theorem EventToString_isSome (e : Event) (h : StringContains e.Condition "," = true) :
    ∃ s, EventToString e = some s := by
  obtain ⟨a, b, rest, hab⟩ := SplitStrings_of_contains _ h
  simp [EventToString, hab, idx_zero_cons, idx_one_cons]

/-- What `ExecuteAction` returns for a rule whose condition has two tokens: always `true`,
and a trace that starts with the entry marker and repeats neither marker. -/
theorem ExecuteAction_spec (env : Env) (e : Event) (h : StringContains e.Condition "," = true) :
    ∃ rest, ExecuteAction env e = some (true, Call.ExecuteAction :: rest) ∧
      Call.ExecuteAction ∉ rest ∧ Call.CheckCondition ∉ rest := by
  obtain ⟨s, hs⟩ := EventToString_isSome e h
  unfold ExecuteAction
  by_cases hA : StringContains e.Action "," = true
  · obtain ⟨a, b, rest, hab⟩ := SplitStrings_of_contains _ hA
    simp only [hA, if_true, hab, idx_zero_cons, idx_one_cons, Option.some_bind, hs]
    by_cases h0 : (a == ACTION_SMS_NOTIFY) = true
    · by_cases h1 : (b == "ALL") = true
      · simp [h0, h1]
      · simp [h0, h1]
    · simp [h0]
  · simp [hA, hs]

theorem returnExecuteAction_spec (env : Env) (e : Event)
    (h : StringContains e.Condition "," = true) :
    ∃ rest, returnExecuteAction env e =
        some (true, Call.CheckCondition :: Call.ExecuteAction :: rest) ∧
      Call.ExecuteAction ∉ rest ∧ Call.CheckCondition ∉ rest := by
  obtain ⟨rest, h1, h2, h3⟩ := ExecuteAction_spec env e h
  exact ⟨rest, by simp [returnExecuteAction, h1], h2, h3⟩

/-- The switch of `CheckCondition` computes the comparison named by the operator token. -/
theorem CheckCondition_eq (env : Env) (e : Event) (c0 c1 : String) (rest : List String)
    (ticker : Ticker)
    (hsplit : SplitStrings e.Condition "," = c0 :: c1 :: rest)
    (hticker : env.GetTickerByExchange e.Exchange = some ticker)
    (hlast : F64.eq (ticker.last e.FirstCurrency e.SecondCurrency) F64.zero = false) :
    CheckCondition env e =
      if opHolds c0 (ticker.last e.FirstCurrency e.SecondCurrency) (env.ParseFloat c1).1 = true
      then returnExecuteAction env e else some (false, [Call.CheckCondition]) := by
  unfold CheckCondition
  simp only [hsplit, idx_zero_cons, idx_one_cons, Option.some_bind, hticker, hlast]
  simp only [opHolds, GREATER_THAN, GREATER_THAN_OR_EQUAL, LESS_THAN, LESS_THAN_OR_EQUAL,
    IS_EQUAL, beq_iff_eq]
  by_cases h1 : c0 = ">"
  · simp [h1]
  by_cases h2 : c0 = ">="
  · simp [h2]
  by_cases h3 : c0 = "<"
  · simp [h3]
  by_cases h4 : c0 = "<="
  · simp [h4]
  by_cases h5 : c0 = "=="
  · simp [h5]
  simp [h1, h2, h3, h4, h5]

theorem contains_of_split (s c0 c1 : String) (rest : List String)
    (hsplit : SplitStrings s "," = c0 :: c1 :: rest) : StringContains s "," = true := by
  by_contra h
  have h2 : StringContains s "," = false := by simpa using h
  rw [SplitStrings_of_not_contains s h2] at hsplit
  simp at hsplit

/-- A condition `op,t` with one of the five operators and a comma-free threshold
splits into exactly these two tokens. -/
theorem SplitStrings_op (op t : String)
    (hop : op = ">" ∨ op = ">=" ∨ op = "<" ∨ op = "<=" ∨ op = "==")
    (hcomma : ',' ∉ t.data) :
    SplitStrings (op ++ "," ++ t) "," = [op, t] := by
  have ht := splitChars_comma_of_not_mem t.data hcomma
  rcases hop with h | h | h | h | h <;> subst h <;>
    simp [SplitStrings_comma, String.data_append, splitChars, List.isPrefixOf, ht]

theorem F64_eq_zero_zero : F64.eq F64.zero F64.zero = true := by
  simp [F64.eq, F64.zero]

theorem mapGet_absent {β : Type} (zero : β) (m : List (String × β)) (k : String)
    (h : ∀ kv ∈ m, kv.1 ≠ k) : mapGet zero m k = zero := by
  have hfind : m.find? (fun kv => kv.1 == k) = none := by
    rw [List.find?_eq_none]
    intro kv hkv
    simpa using h kv hkv
  simp [mapGet, hfind]

/-- A pair that the ticker does not list reads as the price zero. -/
theorem Ticker_last_absent (t : Ticker) (first second : String)
    (h : (∀ kv ∈ t.Price, kv.1 ≠ first) ∨
      (∀ kv ∈ mapGet [] t.Price first, kv.1 ≠ second)) :
    t.last first second = F64.zero := by
  rcases h with h | h
  · have h1 : mapGet ([] : List (String × TickerPrice)) t.Price first = [] :=
      mapGet_absent [] t.Price first h
    have h2 : mapGet (TickerPrice.mk F64.zero) [] second = TickerPrice.mk F64.zero :=
      mapGet_absent _ [] second (by simp)
    simp only [Ticker.last, h1, h2]
  · simp [Ticker.last, mapGet_absent _ _ second h]

/-- With no ticker or no price, `CheckCondition` stops right after reading the threshold. -/
theorem CheckCondition_skip (env : Env) (e : Event)
    (h : env.GetTickerByExchange e.Exchange = none ∨
      ∃ ticker, env.GetTickerByExchange e.Exchange = some ticker ∧
        F64.eq (ticker.last e.FirstCurrency e.SecondCurrency) F64.zero = true) :
    CheckCondition env e =
      (idx (SplitStrings e.Condition ",") 1).bind fun _ => some (false, [Call.CheckCondition]) := by
  unfold CheckCondition
  rcases h with h | ⟨ticker, h, hz⟩
  · simp [h]
  · simp [h, hz]



theorem opHolds_gt (p t : F64) : opHolds ">" p t = F64.gt p t := by
  simp [opHolds]

theorem opHolds_is_equal (p t : F64) : opHolds "==" p t = F64.eq p t := by
  unfold opHolds
  rw [if_neg (by decide), if_neg (by decide), if_neg (by decide), if_neg (by decide)]
  simp

/-! ### The registry operations -/

/-- The loop of `RemoveEvent`, started behind a prefix without a match: it either finds
nothing, or cuts out the first match of the remainder. -/
theorem removeLoop_append (EventID : Int) (pre rest : List Event) :
    removeLoop EventID (pre ++ rest) pre.length rest =
      if rest.any (fun x => x.ID == EventID) = true
      then (true, pre ++ rest.eraseP (fun x => x.ID == EventID))
      else (false, pre ++ rest) := by
  induction rest generalizing pre with
  | nil => simp [removeLoop]
  | cons x rest ih =>
    by_cases hx : (x.ID == EventID) = true
    · simp [removeLoop, hx]
    · have h := ih (pre ++ [x])
      simp only [List.append_assoc, List.singleton_append, List.length_append,
        List.length_singleton] at h
      simp only [removeLoop, hx, h, List.any_cons, Bool.false_or, if_false,
        Bool.false_eq_true]
      have hx2 : (x.ID == EventID) = false := by simpa using hx
      simp [List.eraseP_cons, hx2]

theorem RemoveEvent_eq (Events : List Event) (EventID : Int) :
    RemoveEvent Events EventID =
      if Events.any (fun x => x.ID == EventID) = true
      then (true, Events.eraseP (fun x => x.ID == EventID))
      else (false, Events) := by
  have h := removeLoop_append EventID [] Events
  simpa [RemoveEvent] using h

theorem countLoop_eq (Events : List Event) (k : Int) :
    Events.foldl (fun n x => if x.Executed = true then n + 1 else n) k =
      k + (Events.countP fun x => x.Executed : Nat) := by
  induction Events generalizing k with
  | nil => simp
  | cons x xs ih =>
    by_cases hx : x.Executed = true
    · simp [List.foldl_cons, ih, hx, List.countP_cons]
      ring
    · simp [List.foldl_cons, ih, hx, List.countP_cons]

theorem GetEventCounter_eq (Events : List Event) :
    GetEventCounter Events =
      ((Events.length : Int), ((Events.countP fun x => x.Executed : Nat) : Int)) := by
  simp [GetEventCounter, countLoop_eq]

theorem AddEvent_of_valid (env : Env) (Events : List Event)
    (Exchange Item Condition FirstCurrency SecondCurrency Action : String)
    (h : IsValidEvent env Exchange Item Condition Action = some none) :
    AddEvent env Events Exchange Item Condition FirstCurrency SecondCurrency Action =
      some ((if Events.length = 0 then 0 else (Events.length : Int) + 1, none),
        Events ++ [Event.mk (if Events.length = 0 then 0 else (Events.length : Int) + 1)
          Exchange Item Condition FirstCurrency SecondCurrency Action false]) := by
  simp [AddEvent, h]

/-! ### The evaluation loop -/

theorem idx_one_eq_some {α : Type} (l : List α) (b : α) (h : idx l 1 = some b) :
    ∃ a rest, l = a :: b :: rest := by
  cases l with
  | nil => simp [idx] at h
  | cons a l2 =>
    cases l2 with
    | nil => simp [idx] at h
    | cons b2 rest =>
      simp [idx] at h
      exact ⟨a, rest, by rw [h]⟩

/-- The calls of a returning `CheckCondition`: its own marker alone when it returns
`false`; its marker, then one entry into `ExecuteAction`, then calls that are neither
marker when it returns `true`. -/
theorem CheckCondition_trace (env : Env) (e : Event) (s : Bool) (calls : List Call)
    (h : CheckCondition env e = some (s, calls)) :
    (s = false ∧ calls = [Call.CheckCondition]) ∨
    (s = true ∧ ∃ rest, calls = Call.CheckCondition :: Call.ExecuteAction :: rest ∧
      Call.ExecuteAction ∉ rest ∧ Call.CheckCondition ∉ rest) := by
  cases hi : idx (SplitStrings e.Condition ",") 1 with
  | none => simp [CheckCondition, hi] at h
  | some c1 =>
    obtain ⟨c0, rest, hsplit⟩ := idx_one_eq_some _ _ hi
    have hc := contains_of_split _ _ _ _ hsplit
    cases ht : env.GetTickerByExchange e.Exchange with
    | none =>
      rw [CheckCondition_skip env e (Or.inl ht), hi] at h
      simp at h
      exact Or.inl ⟨h.1, h.2.symm⟩
    | some ticker =>
      by_cases hz : F64.eq (ticker.last e.FirstCurrency e.SecondCurrency) F64.zero = true
      · rw [CheckCondition_skip env e (Or.inr ⟨ticker, ht, hz⟩), hi] at h
        simp at h
        exact Or.inl ⟨h.1, h.2.symm⟩
      · have hz2 : F64.eq (ticker.last e.FirstCurrency e.SecondCurrency) F64.zero = false := by
          simpa using hz
        rw [CheckCondition_eq env e c0 c1 rest ticker hsplit ht hz2] at h
        obtain ⟨tr, htr, h1, h2⟩ := returnExecuteAction_spec env e hc
        split at h
        · rw [htr] at h
          simp at h
          exact Or.inr ⟨h.1, tr, h.2.symm, h1, h2⟩
        · simp at h
          exact Or.inl ⟨h.1, h.2.symm⟩

theorem dispatches_nil (i : Nat) : dispatches i [] = 0 := rfl

theorem dispatches_append (i : Nat) (a b : List (Nat × Call)) :
    dispatches i (a ++ b) = dispatches i a + dispatches i b := by
  simp [dispatches, List.countP_append]

theorem dispatches_eq_zero (i : Nat) (tr : List (Nat × Call))
    (h : ∀ x ∈ tr, x ≠ (i, Call.ExecuteAction)) : dispatches i tr = 0 := by
  simp only [dispatches, List.countP_eq_zero]
  intro x hx
  simpa using h x hx

theorem dispatches_pos (i : Nat) (tr : List (Nat × Call)) (h : 0 < dispatches i tr) :
    (i, Call.ExecuteAction) ∈ tr := by
  simp only [dispatches, List.countP_pos_iff] at h
  obtain ⟨x, hx, hxe⟩ := h
  have : x = (i, Call.ExecuteAction) := by simpa using hxe
  rw [← this]
  exact hx

/-- The entries one call of `CheckCondition` on the rule at index `k` adds to the trace. -/
theorem dispatches_calls (env : Env) (e : Event) (s : Bool) (calls : List Call) (i k : Nat)
    (h : CheckCondition env e = some (s, calls)) :
    dispatches i (calls.map fun c => (k, c)) ≤ 1 ∧
    (0 < dispatches i (calls.map fun c => (k, c)) → i = k ∧ s = true) := by
  rcases CheckCondition_trace env e s calls h with ⟨hs, hc⟩ | ⟨hs, rest, hc, h1, -⟩
  · subst hc
    simp [dispatches]
  · subst hc
    have hrest : dispatches i (rest.map fun c => (k, c)) = 0 := by
      apply dispatches_eq_zero
      intro x hx
      obtain ⟨c, hc, rfl⟩ := List.mem_map.1 hx
      intro heq
      have : c = Call.ExecuteAction := (Prod.mk.inj heq).2
      exact h1 (this ▸ hc)
    have hsplit : (List.map (fun c => (k, c)) (Call.CheckCondition :: Call.ExecuteAction :: rest))
        = [(k, Call.CheckCondition), (k, Call.ExecuteAction)] ++ rest.map fun c => (k, c) := by
      simp
    rw [hsplit, dispatches_append, hrest]
    by_cases hik : k = i
    · subst hik
      simp [dispatches, List.countP_cons, hs]
    · simp [dispatches, List.countP_cons, hik]

theorem checkLoop_executed (env : Env) (k : Nat) (e : Event) (rest : List Event)
    (h : e.Executed = true) :
    checkLoop env k (e :: rest) =
      { Events := e :: (checkLoop env (k + 1) rest).Events
        trace := (checkLoop env (k + 1) rest).trace
        panicked := (checkLoop env (k + 1) rest).panicked } := by
  simp [checkLoop, h]

theorem checkLoop_panic (env : Env) (k : Nat) (e : Event) (rest : List Event)
    (h : e.Executed = false) (hc : CheckCondition env e = none) :
    checkLoop env k (e :: rest) = { Events := e :: rest, trace := [], panicked := true } := by
  simp [checkLoop, h, hc]

theorem checkLoop_fire (env : Env) (k : Nat) (e : Event) (rest : List Event)
    (calls : List Call) (h : e.Executed = false)
    (hc : CheckCondition env e = some (true, calls)) :
    checkLoop env k (e :: rest) =
      { Events := { e with Executed := true } :: (checkLoop env (k + 1) rest).Events
        trace := calls.map (fun c => (k, c)) ++
          (k, Call.logPrintf ("Event " ++ toString e.ID ++ " triggered on " ++
            e.Exchange ++ " successfully.\n")) :: (checkLoop env (k + 1) rest).trace
        panicked := (checkLoop env (k + 1) rest).panicked } := by
  simp [checkLoop, h, hc]

theorem checkLoop_skip (env : Env) (k : Nat) (e : Event) (rest : List Event)
    (calls : List Call) (h : e.Executed = false)
    (hc : CheckCondition env e = some (false, calls)) :
    checkLoop env k (e :: rest) =
      { Events := e :: (checkLoop env (k + 1) rest).Events
        trace := calls.map (fun c => (k, c)) ++ (checkLoop env (k + 1) rest).trace
        panicked := (checkLoop env (k + 1) rest).panicked } := by
  simp [checkLoop, h, hc]

/-- The four ways the loop body can treat the rule at the head of the slice. -/
theorem checkLoop_cases (env : Env) (k : Nat) (e : Event) (rest : List Event) :
    (e.Executed = true ∧
      checkLoop env k (e :: rest) =
        { Events := e :: (checkLoop env (k + 1) rest).Events
          trace := (checkLoop env (k + 1) rest).trace
          panicked := (checkLoop env (k + 1) rest).panicked }) ∨
    (e.Executed = false ∧ CheckCondition env e = none ∧
      checkLoop env k (e :: rest) = { Events := e :: rest, trace := [], panicked := true }) ∨
    (∃ calls, e.Executed = false ∧ CheckCondition env e = some (true, calls) ∧
      checkLoop env k (e :: rest) =
        { Events := { e with Executed := true } :: (checkLoop env (k + 1) rest).Events
          trace := calls.map (fun c => (k, c)) ++
            (k, Call.logPrintf ("Event " ++ toString e.ID ++ " triggered on " ++
              e.Exchange ++ " successfully.\n")) :: (checkLoop env (k + 1) rest).trace
          panicked := (checkLoop env (k + 1) rest).panicked }) ∨
    (∃ calls, e.Executed = false ∧ CheckCondition env e = some (false, calls) ∧
      checkLoop env k (e :: rest) =
        { Events := e :: (checkLoop env (k + 1) rest).Events
          trace := calls.map (fun c => (k, c)) ++ (checkLoop env (k + 1) rest).trace
          panicked := (checkLoop env (k + 1) rest).panicked }) := by
  cases hE : e.Executed with
  | true => exact Or.inl ⟨rfl, checkLoop_executed env k e rest hE⟩
  | false =>
    cases hc : CheckCondition env e with
    | none => exact Or.inr (Or.inl ⟨rfl, rfl, checkLoop_panic env k e rest hE hc⟩)
    | some r =>
      obtain ⟨s, calls⟩ := r
      cases s with
      | true => exact Or.inr (Or.inr (Or.inl ⟨calls, rfl, rfl, checkLoop_fire env k e rest calls hE hc⟩))
      | false => exact Or.inr (Or.inr (Or.inr ⟨calls, rfl, rfl, checkLoop_skip env k e rest calls hE hc⟩))

theorem checkLoop_length (env : Env) (k : Nat) (evs : List Event) :
    (checkLoop env k evs).Events.length = evs.length := by
  induction evs generalizing k with
  | nil => simp [checkLoop]
  | cons e rest ih =>
    rcases checkLoop_cases env k e rest with ⟨-, h⟩ | ⟨-, -, h⟩ | ⟨c, -, -, h⟩ | ⟨c, -, -, h⟩ <;>
      simp [h, ih]

/-- A rule that is executed before the pass is the same rule after it. -/
theorem checkLoop_keep (env : Env) (k : Nat) (evs : List Event) (j : Nat) (e : Event)
    (hj : evs[j]? = some e) (he : e.Executed = true) :
    (checkLoop env k evs).Events[j]? = some e := by
  induction evs generalizing k j with
  | nil => simp at hj
  | cons x rest ih =>
    cases j with
    | zero =>
      simp at hj
      subst hj
      rw [checkLoop_executed env k x rest he]
      simp
    | succ j =>
      simp at hj
      rcases checkLoop_cases env k x rest with ⟨-, h⟩ | ⟨-, -, h⟩ | ⟨c, -, -, h⟩ | ⟨c, -, -, h⟩
      · simp [h, ih (k + 1) j hj]
      · simp [h, hj]
      · simp [h, ih (k + 1) j hj]
      · simp [h, ih (k + 1) j hj]

/-- Every entry of the trace belongs to a rule that was not executed before the pass. -/
theorem checkLoop_trace_index (env : Env) (k : Nat) (evs : List Event) (x : Nat × Call)
    (hx : x ∈ (checkLoop env k evs).trace) :
    k ≤ x.1 ∧ ∃ e, evs[x.1 - k]? = some e ∧ e.Executed = false := by
  induction evs generalizing k with
  | nil => simp [checkLoop] at hx
  | cons y rest ih =>
    have tail : x ∈ (checkLoop env (k + 1) rest).trace →
        k ≤ x.1 ∧ ∃ e, (y :: rest)[x.1 - k]? = some e ∧ e.Executed = false := by
      intro hm
      obtain ⟨hk, e, he, hex⟩ := ih (k + 1) hm
      refine ⟨by omega, e, ?_, hex⟩
      have : x.1 - k = (x.1 - (k + 1)) + 1 := by omega
      rw [this]
      simpa using he
    have head : x.1 = k → y.Executed = false →
        k ≤ x.1 ∧ ∃ e, (y :: rest)[x.1 - k]? = some e ∧ e.Executed = false := by
      intro h1 h2
      refine ⟨by omega, y, ?_, h2⟩
      have : x.1 - k = 0 := by omega
      rw [this]
      simp
    rcases checkLoop_cases env k y rest with ⟨-, h⟩ | ⟨-, -, h⟩ | ⟨c, hy, -, h⟩ | ⟨c, hy, -, h⟩
    · rw [h] at hx
      exact tail hx
    · rw [h] at hx
      simp at hx
    · rw [h] at hx
      simp only [List.mem_append, List.mem_map, List.mem_cons] at hx
      rcases hx with ⟨c2, -, rfl⟩ | rfl | hx
      · exact head rfl hy
      · exact head rfl hy
      · exact tail hx
    · rw [h] at hx
      simp only [List.mem_append, List.mem_map] at hx
      rcases hx with ⟨c2, -, rfl⟩ | hx
      · exact head rfl hy
      · exact tail hx

/-- Within one pass a rule is dispatched at most once, and a rule that was dispatched is
marked executed afterwards. -/
theorem checkLoop_dispatches (env : Env) (i k : Nat) (evs : List Event) :
    dispatches i (checkLoop env k evs).trace ≤ 1 ∧
    (0 < dispatches i (checkLoop env k evs).trace →
      k ≤ i ∧ ∃ e, (checkLoop env k evs).Events[i - k]? = some e ∧ e.Executed = true) := by
  induction evs generalizing k with
  | nil => simp [checkLoop, dispatches]
  | cons y rest ih =>
    obtain ⟨ih1, ih2⟩ := ih (k + 1)
    have tail : 0 < dispatches i (checkLoop env (k + 1) rest).trace →
        ∀ z : Event, k ≤ i ∧ ∃ e,
          (z :: (checkLoop env (k + 1) rest).Events)[i - k]? = some e ∧ e.Executed = true := by
      intro hp z
      obtain ⟨hk, e, he, hex⟩ := ih2 hp
      refine ⟨by omega, e, ?_, hex⟩
      have : i - k = (i - (k + 1)) + 1 := by omega
      rw [this]
      simpa using he
    have tail0 : i = k → dispatches i (checkLoop env (k + 1) rest).trace = 0 := by
      intro hik
      apply dispatches_eq_zero
      intro x hx heq
      have := (checkLoop_trace_index env (k + 1) rest x hx).1
      rw [heq] at this
      simp at this
      omega
    rcases checkLoop_cases env k y rest with ⟨-, h⟩ | ⟨-, -, h⟩ | ⟨c, hy, hc, h⟩ | ⟨c, hy, hc, h⟩
    · rw [h]
      exact ⟨ih1, fun hp => tail hp y⟩
    · rw [h]
      simp [dispatches]
    · rw [h]
      obtain ⟨d1, d2⟩ := dispatches_calls env y true c i k hc
      have hlog : dispatches i
          ((k, Call.logPrintf ("Event " ++ toString y.ID ++ " triggered on " ++
            y.Exchange ++ " successfully.\n")) :: (checkLoop env (k + 1) rest).trace) =
          dispatches i (checkLoop env (k + 1) rest).trace := by
        simp [dispatches, List.countP_cons]
      simp only [dispatches_append, hlog]
      by_cases hik : i = k
      · have h0 := tail0 hik
        refine ⟨by omega, fun _ => ⟨by omega, { y with Executed := true }, ?_, rfl⟩⟩
        have : i - k = 0 := by omega
        rw [this]
        simp
      · have h0 : dispatches i (c.map fun c => (k, c)) = 0 := by
          by_contra hne
          exact hik (d2 (by omega)).1
        refine ⟨by omega, fun hp => tail (by omega) _⟩
    · rw [h]
      obtain ⟨d1, d2⟩ := dispatches_calls env y false c i k hc
      have h0 : dispatches i (c.map fun c => (k, c)) = 0 := by
        by_contra hne
        have := (d2 (by omega)).2
        simp at this
      simp only [dispatches_append, h0]
      exact ⟨by omega, fun hp => tail (by omega) _⟩

/-- `CheckEventsCycle` is the inner loop from index 0, or nothing at all. -/
theorem CheckEventsCycle_cases (env : Env) (Events : List Event) :
    CheckEventsCycle env Events = checkLoop env 0 Events ∨
    CheckEventsCycle env Events = { Events := Events, trace := [], panicked := false } := by
  unfold CheckEventsCycle
  simp only
  split
  · exact Or.inl rfl
  · exact Or.inr rfl

theorem CheckEventsCycle_length (env : Env) (Events : List Event) :
    (CheckEventsCycle env Events).Events.length = Events.length := by
  rcases CheckEventsCycle_cases env Events with h | h <;> rw [h]
  exact checkLoop_length env 0 Events

theorem CheckEventsCycle_keep (env : Env) (Events : List Event) (j : Nat) (e : Event)
    (hj : Events[j]? = some e) (he : e.Executed = true) :
    (CheckEventsCycle env Events).Events[j]? = some e := by
  rcases CheckEventsCycle_cases env Events with h | h <;> rw [h]
  · exact checkLoop_keep env 0 Events j e hj he
  · exact hj

theorem CheckEventsCycle_trace_index (env : Env) (Events : List Event) (x : Nat × Call)
    (hx : x ∈ (CheckEventsCycle env Events).trace) :
    ∃ e, Events[x.1]? = some e ∧ e.Executed = false := by
  rcases CheckEventsCycle_cases env Events with h | h <;> rw [h] at hx
  · simpa using (checkLoop_trace_index env 0 Events x hx).2
  · simp at hx

theorem CheckEventsCycle_dispatches (env : Env) (i : Nat) (Events : List Event) :
    dispatches i (CheckEventsCycle env Events).trace ≤ 1 ∧
    (0 < dispatches i (CheckEventsCycle env Events).trace →
      ∃ e, (CheckEventsCycle env Events).Events[i]? = some e ∧ e.Executed = true) := by
  rcases CheckEventsCycle_cases env Events with h | h <;> rw [h]
  · obtain ⟨h1, h2⟩ := checkLoop_dispatches env i 0 Events
    exact ⟨h1, fun hp => by simpa using (h2 hp).2⟩
  · simp [dispatches]

/-- Over a run of cycles, every entry of the trace belongs to a rule that was not
executed when the run started. -/
theorem runCycles_trace_index (envs : List Env) (Events : List Event) (x : Nat × Call)
    (hx : x ∈ (runCycles envs Events).trace) :
    ∃ e, Events[x.1]? = some e ∧ e.Executed = false := by
  induction envs generalizing Events with
  | nil => simp [runCycles] at hx
  | cons env envs ih =>
    unfold runCycles at hx
    simp only at hx
    split at hx
    · exact CheckEventsCycle_trace_index env Events x hx
    · simp only [List.mem_append] at hx
      rcases hx with hx | hx
      · exact CheckEventsCycle_trace_index env Events x hx
      · obtain ⟨e, he, hex⟩ := ih _ hx
        have hlt : x.1 < Events.length := by
          have := (List.getElem?_eq_some_iff.1 he).1
          rwa [CheckEventsCycle_length] at this
        refine ⟨Events[x.1], List.getElem?_eq_getElem hlt, ?_⟩
        by_contra hne
        have hT : (Events[x.1]).Executed = true := by simpa using hne
        have := CheckEventsCycle_keep env Events x.1 _ (List.getElem?_eq_getElem hlt) hT
        rw [he] at this
        have h2 : e = Events[x.1] := by simpa using this
        rw [h2, hT] at hex
        exact Bool.noConfusion hex

theorem runCycles_dispatches (envs : List Env) (Events : List Event) (i : Nat) :
    dispatches i (runCycles envs Events).trace ≤ 1 := by
  induction envs generalizing Events with
  | nil => simp [runCycles, dispatches]
  | cons env envs ih =>
    obtain ⟨h1, h2⟩ := CheckEventsCycle_dispatches env i Events
    unfold runCycles
    simp only
    split
    · exact h1
    · simp only [dispatches_append]
      by_cases h0 : dispatches i (CheckEventsCycle env Events).trace = 0
      · have := ih (CheckEventsCycle env Events).Events
        omega
      · obtain ⟨e, he, hex⟩ := h2 (by omega)
        have hz : dispatches i (runCycles envs (CheckEventsCycle env Events).Events).trace = 0 := by
          apply dispatches_eq_zero
          intro x hx heq
          obtain ⟨e2, he2, hex2⟩ := runCycles_trace_index envs _ x hx
          rw [heq] at he2
          simp only at he2
          rw [he] at he2
          have : e = e2 := by simpa using he2
          rw [this, hex2] at hex
          exact Bool.noConfusion hex
        omega

/-! ## The claims -/

/-- C1 (the code violates it). Ids of stored rules are not always pairwise distinct:
from the empty registry, two successful `AddEvent` calls return the ids 0 and 2, then
`RemoveEvent(0)` leaves one rule with id 2, and the next successful `AddEvent`
returns the id 2 again, so the registry holds two rules with the id 2. -/
theorem AddEvent_reuses_live_id :
    applyOps (sampleEnv (F64.fin 150)) []
        [RegistryOp.add "Bitstamp" "PRICE" ">,100" "BTC" "USD" "CONSOLE_PRINT",
         RegistryOp.add "Bitstamp" "PRICE" ">,100" "BTC" "USD" "CONSOLE_PRINT",
         RegistryOp.remove 0]
      = some [sampleRule 2 ">,100" false] ∧
    AddEvent (sampleEnv (F64.fin 150)) [sampleRule 2 ">,100" false]
        "Bitstamp" "PRICE" ">,100" "BTC" "USD" "CONSOLE_PRINT"
      = some ((2, none), [sampleRule 2 ">,100" false, sampleRule 2 ">,100" false]) ∧
    ¬ ([sampleRule 2 ">,100" false, sampleRule 2 ">,100" false].map Event.ID).Nodup := by
  decide

/-- C2 (counterexample). The rule `>,abc` at the last price 5: the threshold token `abc`
is not parseable (`ParseFloat` reports an error, with the value 0), yet `CheckCondition`
invokes `ExecuteAction` and returns `true`. -/
theorem CheckCondition_unparseable_fires :
    idx (SplitStrings (sampleRule 0 ">,abc" false).Condition ",") 1 = some "abc" ∧
    (sampleEnv (F64.fin 5)).ParseFloat "abc" = (F64.fin 0, true) ∧
    CheckCondition (sampleEnv (F64.fin 5)) (sampleRule 0 ">,abc" false) =
      some (true, [Call.CheckCondition, Call.ExecuteAction,
        Call.logPrintf
          "Event triggered: If the BTCUSD PRICE on Bitstamp is > abc then CONSOLE_PRINT."]) := by
  decide

/-- C2 (amended). `CheckCondition` discards the error of `ParseFloat` and compares the
last price with the value `v` returned next to the error (0 for a malformed token): for
a rule with tokens `c0,c1`, a failed parse of `c1`, a successful ticker lookup and a
non-zero last price `p`, it invokes `ExecuteAction` and returns `true` when `p c0 v`
holds, and returns `false` without invoking `ExecuteAction` when it does not. -/
theorem CheckCondition_parse_error (env : Env) (e : Event) (c0 c1 : String)
    (rest : List String) (ticker : Ticker) (v : F64)
    (hsplit : SplitStrings e.Condition "," = c0 :: c1 :: rest)
    (hparse : env.ParseFloat c1 = (v, true))
    (hticker : env.GetTickerByExchange e.Exchange = some ticker)
    (hlast : F64.eq (ticker.last e.FirstCurrency e.SecondCurrency) F64.zero = false) :
    ∃ r, CheckCondition env e = some r ∧
      (opHolds c0 (ticker.last e.FirstCurrency e.SecondCurrency) v = true →
        r.1 = true ∧ Call.ExecuteAction ∈ r.2) ∧
      (opHolds c0 (ticker.last e.FirstCurrency e.SecondCurrency) v = false →
        r = (false, [Call.CheckCondition])) := by
  have hc := contains_of_split _ _ _ _ hsplit
  obtain ⟨tr, htr, -, -⟩ := returnExecuteAction_spec env e hc
  rw [CheckCondition_eq env e c0 c1 rest ticker hsplit hticker hlast, hparse]
  by_cases hh : opHolds c0 (ticker.last e.FirstCurrency e.SecondCurrency) v = true
  · simp [hh, htr]
  · simp [hh]

theorem CheckCondition_parse_error_witness :
    (∃ r, CheckCondition (sampleEnv (F64.fin 5)) (sampleRule 3 "<,abc" false) = some r ∧
      r = (false, [Call.CheckCondition])) ∧
    (∃ r, CheckCondition (sampleEnv (F64.fin 5)) (sampleRule 3 ">=,abc" false) = some r ∧
      r.1 = true ∧ Call.ExecuteAction ∈ r.2) := by
  constructor
  · obtain ⟨r, hr, -, h2⟩ := CheckCondition_parse_error (sampleEnv (F64.fin 5))
      (sampleRule 3 "<,abc" false) "<" "abc" [] (Ticker.mk [("BTC", [("USD", TickerPrice.mk (F64.fin 5))])])
      (F64.fin 0) (by decide) (by decide) (by rfl) (by decide)
    exact ⟨r, hr, h2 (by decide)⟩
  · obtain ⟨r, hr, h1, -⟩ := CheckCondition_parse_error (sampleEnv (F64.fin 5))
      (sampleRule 3 ">=,abc" false) ">=" "abc" [] (Ticker.mk [("BTC", [("USD", TickerPrice.mk (F64.fin 5))])])
      (F64.fin 0) (by decide) (by decide) (by rfl) (by decide)
    exact ⟨r, hr, h1 (by decide)⟩

/-- C3. For a rule whose condition is `op,t` with `op` one of `>`, `>=`, `<`, `<=`, `==`
and `t` a decimal that `ParseFloat` reads as `v` without error, and a successful ticker
lookup with a non-zero last price `p`: `CheckCondition` invokes `ExecuteAction` and
returns `true` when `p op v` holds, and returns `false` without invoking it otherwise. -/
theorem CheckCondition_fires_iff (env : Env) (e : Event) (op t : String)
    (ticker : Ticker) (v : F64)
    (hop : op = ">" ∨ op = ">=" ∨ op = "<" ∨ op = "<=" ∨ op = "==")
    (hcond : e.Condition = op ++ "," ++ t)
    (hcomma : ',' ∉ t.data)
    (hparse : env.ParseFloat t = (v, false))
    (hticker : env.GetTickerByExchange e.Exchange = some ticker)
    (hlast : F64.eq (ticker.last e.FirstCurrency e.SecondCurrency) F64.zero = false) :
    ∃ r, CheckCondition env e = some r ∧
      (opHolds op (ticker.last e.FirstCurrency e.SecondCurrency) v = true →
        r.1 = true ∧ Call.ExecuteAction ∈ r.2) ∧
      (opHolds op (ticker.last e.FirstCurrency e.SecondCurrency) v = false →
        r = (false, [Call.CheckCondition])) := by
  have hsplit : SplitStrings e.Condition "," = [op, t] := by
    rw [hcond]
    exact SplitStrings_op op t hop hcomma
  have hc := contains_of_split _ _ _ _ hsplit
  obtain ⟨tr, htr, -, -⟩ := returnExecuteAction_spec env e hc
  rw [CheckCondition_eq env e op t [] ticker hsplit hticker hlast, hparse]
  by_cases hh : opHolds op (ticker.last e.FirstCurrency e.SecondCurrency) v = true
  · simp [hh, htr]
  · simp [hh]

theorem CheckCondition_fires_iff_witness :
    (∃ r, CheckCondition (sampleEnv (F64.fin (10001 / 100))) (sampleRule 0 ">,100" false) =
        some r ∧ r.1 = true ∧ Call.ExecuteAction ∈ r.2) ∧
    (∃ r, CheckCondition (sampleEnv (F64.fin 100)) (sampleRule 0 ">,100" false) = some r ∧
        r = (false, [Call.CheckCondition])) ∧
    (∃ r, CheckCondition (sampleEnv (F64.fin (9999 / 100))) (sampleRule 0 ">,100" false) =
        some r ∧ r = (false, [Call.CheckCondition])) ∧
    (∃ r, CheckCondition (sampleEnv (F64.fin 50)) (sampleRule 0 "==,50" false) = some r ∧
        r.1 = true ∧ Call.ExecuteAction ∈ r.2) ∧
    (∃ r, CheckCondition (sampleEnv (F64.fin (4999 / 100))) (sampleRule 0 "==,50" false) =
        some r ∧ r = (false, [Call.CheckCondition])) ∧
    (∃ r, CheckCondition (sampleEnv (F64.fin (5001 / 100))) (sampleRule 0 "==,50" false) =
        some r ∧ r = (false, [Call.CheckCondition])) := by
  refine ⟨?_, ?_, ?_, ?_, ?_, ?_⟩
  · obtain ⟨r, hr, h1, -⟩ := CheckCondition_fires_iff (sampleEnv (F64.fin (10001 / 100)))
      (sampleRule 0 ">,100" false) ">" "100"
      (Ticker.mk [("BTC", [("USD", TickerPrice.mk (F64.fin (10001 / 100)))])]) (F64.fin 100)
      (by decide) (by decide) (by decide) (by decide) (by rfl)
      (by norm_num [Ticker.last, mapGet, sampleRule, F64.eq, F64.zero])
    exact ⟨r, hr, h1 (by norm_num [Ticker.last, mapGet, sampleRule, opHolds_gt, F64.gt, F64.lt])⟩
  · obtain ⟨r, hr, -, h2⟩ := CheckCondition_fires_iff (sampleEnv (F64.fin 100))
      (sampleRule 0 ">,100" false) ">" "100"
      (Ticker.mk [("BTC", [("USD", TickerPrice.mk (F64.fin 100))])]) (F64.fin 100)
      (by decide) (by decide) (by decide) (by decide) (by rfl)
      (by norm_num [Ticker.last, mapGet, sampleRule, F64.eq, F64.zero])
    exact ⟨r, hr, h2 (by norm_num [Ticker.last, mapGet, sampleRule, opHolds_gt, F64.gt, F64.lt])⟩
  · obtain ⟨r, hr, -, h2⟩ := CheckCondition_fires_iff (sampleEnv (F64.fin (9999 / 100)))
      (sampleRule 0 ">,100" false) ">" "100"
      (Ticker.mk [("BTC", [("USD", TickerPrice.mk (F64.fin (9999 / 100)))])]) (F64.fin 100)
      (by decide) (by decide) (by decide) (by decide) (by rfl)
      (by norm_num [Ticker.last, mapGet, sampleRule, F64.eq, F64.zero])
    exact ⟨r, hr, h2 (by norm_num [Ticker.last, mapGet, sampleRule, opHolds_gt, F64.gt, F64.lt])⟩
  · obtain ⟨r, hr, h1, -⟩ := CheckCondition_fires_iff (sampleEnv (F64.fin 50))
      (sampleRule 0 "==,50" false) "==" "50"
      (Ticker.mk [("BTC", [("USD", TickerPrice.mk (F64.fin 50))])]) (F64.fin 50)
      (by decide) (by decide) (by decide) (by decide) (by rfl)
      (by norm_num [Ticker.last, mapGet, sampleRule, F64.eq, F64.zero])
    exact ⟨r, hr, h1 (by norm_num [Ticker.last, mapGet, sampleRule, opHolds_is_equal, F64.eq])⟩
  · obtain ⟨r, hr, -, h2⟩ := CheckCondition_fires_iff (sampleEnv (F64.fin (4999 / 100)))
      (sampleRule 0 "==,50" false) "==" "50"
      (Ticker.mk [("BTC", [("USD", TickerPrice.mk (F64.fin (4999 / 100)))])]) (F64.fin 50)
      (by decide) (by decide) (by decide) (by decide) (by rfl)
      (by norm_num [Ticker.last, mapGet, sampleRule, F64.eq, F64.zero])
    exact ⟨r, hr, h2 (by norm_num [Ticker.last, mapGet, sampleRule, opHolds_is_equal, F64.eq])⟩
  · obtain ⟨r, hr, -, h2⟩ := CheckCondition_fires_iff (sampleEnv (F64.fin (5001 / 100)))
      (sampleRule 0 "==,50" false) "==" "50"
      (Ticker.mk [("BTC", [("USD", TickerPrice.mk (F64.fin (5001 / 100)))])]) (F64.fin 50)
      (by decide) (by decide) (by decide) (by decide) (by rfl)
      (by norm_num [Ticker.last, mapGet, sampleRule, F64.eq, F64.zero])
    exact ⟨r, hr, h2 (by norm_num [Ticker.last, mapGet, sampleRule, opHolds_is_equal, F64.eq])⟩

/-- C4. Over any run of evaluation cycles, whatever the collaborators report in each
cycle: a rule whose `Executed` flag is set at the start has no entry in the trace, so
neither `CheckCondition` nor `ExecuteAction` is called on it; and for every rule the
trace holds at most one entry into `ExecuteAction`. -/
theorem CheckEvents_dispatch_once (envs : List Env) (Events : List Event) (i : Nat) :
    (∀ e, Events[i]? = some e → e.Executed = true →
      ∀ c, (i, c) ∉ (runCycles envs Events).trace) ∧
    dispatches i (runCycles envs Events).trace ≤ 1 := by
  refine ⟨?_, runCycles_dispatches envs Events i⟩
  intro e he hex c hc
  obtain ⟨e2, he2, hex2⟩ := runCycles_trace_index envs Events (i, c) hc
  simp only at he2
  rw [he] at he2
  have : e = e2 := by simpa using he2
  rw [this, hex2] at hex
  exact Bool.noConfusion hex

theorem CheckEvents_dispatch_once_witness :
    (∀ c, (0, c) ∉ (runCycles [sampleEnv (F64.fin 150), sampleEnv (F64.fin 150)]
        [sampleRule 0 ">,100" true, sampleRule 2 ">,100" false]).trace) ∧
    dispatches 1 (runCycles [sampleEnv (F64.fin 150), sampleEnv (F64.fin 150)]
        [sampleRule 0 ">,100" true, sampleRule 2 ">,100" false]).trace = 1 :=
  ⟨(CheckEvents_dispatch_once [sampleEnv (F64.fin 150), sampleEnv (F64.fin 150)]
      [sampleRule 0 ">,100" true, sampleRule 2 ">,100" false] 0).1
      (sampleRule 0 ">,100" true) rfl rfl,
   by decide⟩

/-- C5. When no stored rule has the given id, `RemoveEvent` returns `false` and the
registry afterwards is the registry before: same rules, same order, same fields. -/
theorem RemoveEvent_absent (Events : List Event) (EventID : Int)
    (h : ∀ e ∈ Events, e.ID ≠ EventID) :
    RemoveEvent Events EventID = (false, Events) := by
  have hany : ¬ (Events.any (fun x => x.ID == EventID) = true) := by
    simpa using h
  simp [RemoveEvent_eq, hany]

theorem RemoveEvent_absent_witness :
    RemoveEvent [sampleRule 0 ">,100" false, sampleRule 2 "<,50" true] 7 =
      (false, [sampleRule 0 ">,100" false, sampleRule 2 "<,50" true]) :=
  RemoveEvent_absent [sampleRule 0 ">,100" false, sampleRule 2 "<,50" true] 7 (by decide)

/-- C6. `RemoveEvent` returns `true` exactly when some stored rule has the given id; and
when it returns `true` the registry splits as `pre ++ x :: post` where `x` is the first
rule with that id, the new registry is `pre ++ post` (every other rule kept, unchanged,
in the same order) and it is shorter by exactly one. -/
theorem RemoveEvent_present (Events : List Event) (EventID : Int) :
    ((RemoveEvent Events EventID).1 = true ↔ ∃ e ∈ Events, e.ID = EventID) ∧
    ((RemoveEvent Events EventID).1 = true →
      ∃ pre x post, Events = pre ++ x :: post ∧ x.ID = EventID ∧
        (∀ y ∈ pre, y.ID ≠ EventID) ∧
        (RemoveEvent Events EventID).2 = pre ++ post ∧
        (RemoveEvent Events EventID).2.length + 1 = Events.length) := by
  rw [RemoveEvent_eq]
  by_cases hany : Events.any (fun x => x.ID == EventID) = true
  · simp only [hany, if_true, true_iff, forall_true_left]
    have hex : ∃ e ∈ Events, e.ID = EventID := by simpa using hany
    refine ⟨hex, ?_⟩
    obtain ⟨e, he, hid⟩ := hex
    obtain ⟨x, pre, post, hpre, hx, hsplit, herase⟩ :=
      List.exists_of_eraseP (p := fun x => x.ID == EventID) he (by simpa using hid)
    refine ⟨pre, x, post, hsplit, by simpa using hx, ?_, herase, ?_⟩
    · intro y hy
      simpa using hpre y hy
    · rw [herase, hsplit]
      simp
      omega
  · have hno : ¬ ∃ e ∈ Events, e.ID = EventID := by simpa using hany
    simp [hany, hno]

theorem RemoveEvent_present_witness :
    (RemoveEvent [sampleRule 0 ">,100" false, sampleRule 2 "<,50" true,
        sampleRule 2 ">,200" false] 2).1 = true ∧
    ∃ pre x post,
      [sampleRule 0 ">,100" false, sampleRule 2 "<,50" true, sampleRule 2 ">,200" false] =
        pre ++ x :: post ∧ x.ID = 2 ∧ (∀ y ∈ pre, y.ID ≠ 2) ∧
      (RemoveEvent [sampleRule 0 ">,100" false, sampleRule 2 "<,50" true,
        sampleRule 2 ">,200" false] 2).2 = pre ++ post ∧
      (RemoveEvent [sampleRule 0 ">,100" false, sampleRule 2 "<,50" true,
        sampleRule 2 ">,200" false] 2).2.length + 1 =
        [sampleRule 0 ">,100" false, sampleRule 2 "<,50" true,
          sampleRule 2 ">,200" false].length :=
  ⟨by decide,
   (RemoveEvent_present [sampleRule 0 ">,100" false, sampleRule 2 "<,50" true,
      sampleRule 2 ">,200" false] 2).2 (by decide)⟩

/-- C7. When `IsValidEvent` returns an error, `AddEvent` returns `(0, err)` with that
same error and the registry is exactly what it was. -/
theorem AddEvent_invalid (env : Env) (Events : List Event)
    (Exchange Item Condition FirstCurrency SecondCurrency Action : String) (err : Err)
    (h : IsValidEvent env Exchange Item Condition Action = some (some err)) :
    AddEvent env Events Exchange Item Condition FirstCurrency SecondCurrency Action =
      some ((0, some err), Events) := by
  simp [AddEvent, h]

theorem AddEvent_invalid_witness :
    AddEvent (sampleEnv (F64.fin 150)) [sampleRule 0 ">,100" false]
        "Bitstamp" "PRICE" "~,10" "BTC" "USD" "CONSOLE_PRINT" =
      some ((0, some Err.ErrInvalidCondition), [sampleRule 0 ">,100" false]) :=
  AddEvent_invalid (sampleEnv (F64.fin 150)) [sampleRule 0 ">,100" false]
    "Bitstamp" "PRICE" "~,10" "BTC" "USD" "CONSOLE_PRINT" Err.ErrInvalidCondition (by decide)

/-- C8. When the arguments pass `IsValidEvent`, `AddEvent` returns `(id, nil)` and the new
registry is the old one followed by one new rule carrying that id, the six string
arguments and `Executed = false`; the id is 0 for an empty registry and the length
plus one otherwise. -/
theorem AddEvent_valid (env : Env) (Events : List Event)
    (Exchange Item Condition FirstCurrency SecondCurrency Action : String)
    (h : IsValidEvent env Exchange Item Condition Action = some none) :
    ∃ id : Int, id = (if Events.length = 0 then 0 else (Events.length : Int) + 1) ∧
      AddEvent env Events Exchange Item Condition FirstCurrency SecondCurrency Action =
        some ((id, none),
          Events ++ [Event.mk id Exchange Item Condition FirstCurrency SecondCurrency
            Action false]) :=
  ⟨_, rfl, AddEvent_of_valid env Events Exchange Item Condition FirstCurrency SecondCurrency
    Action h⟩

theorem AddEvent_valid_witness :
    ∃ id : Int, id = (if [sampleRule 0 ">,100" false].length = 0 then 0
        else ([sampleRule 0 ">,100" false].length : Int) + 1) ∧
      AddEvent (sampleEnv (F64.fin 150)) [sampleRule 0 ">,100" false]
          "Bitstamp" "PRICE" "<=,50" "ETH" "EUR" "SMS,bob" =
        some ((id, none),
          [sampleRule 0 ">,100" false] ++
            [Event.mk id "Bitstamp" "PRICE" "<=,50" "ETH" "EUR" "SMS,bob" false]) :=
  AddEvent_valid (sampleEnv (F64.fin 150)) [sampleRule 0 ">,100" false]
    "Bitstamp" "PRICE" "<=,50" "ETH" "EUR" "SMS,bob" (by decide)

/-- C9. `GetEventCounter` returns the number of stored rules and the number of stored
rules whose `Executed` flag is set (it only reads `Events`), so `executed <= total`;
and after three `AddEvent` calls on the empty registry and one evaluation cycle at the
price 150, in which only the first rule (`> 100`) fires, it returns `(3, 1)`. -/
theorem GetEventCounter_counts (Events : List Event) :
    GetEventCounter Events =
      ((Events.length : Int), ((Events.countP fun x => x.Executed : Nat) : Int)) ∧
    (GetEventCounter Events).2 ≤ (GetEventCounter Events).1 ∧
    (applyOps (sampleEnv (F64.fin 150)) []
        [RegistryOp.add "Bitstamp" "PRICE" ">,100" "BTC" "USD" "CONSOLE_PRINT",
         RegistryOp.add "Bitstamp" "PRICE" ">,200" "BTC" "USD" "CONSOLE_PRINT",
         RegistryOp.add "Bitstamp" "PRICE" "<,100" "BTC" "USD" "SMS,ALL"]).map
      (fun evs =>
        (dispatches 0 (CheckEventsCycle (sampleEnv (F64.fin 150)) evs).trace,
         dispatches 1 (CheckEventsCycle (sampleEnv (F64.fin 150)) evs).trace,
         dispatches 2 (CheckEventsCycle (sampleEnv (F64.fin 150)) evs).trace,
         GetEventCounter (CheckEventsCycle (sampleEnv (F64.fin 150)) evs).Events))
      = some (1, 0, 0, (3, 1)) := by
  refine ⟨GetEventCounter_eq Events, ?_, by decide⟩
  rw [GetEventCounter_eq]
  have hle := List.countP_le_length (fun x : Event => x.Executed) (l := Events)
  show ((Events.countP fun x => x.Executed : Nat) : Int) ≤ (Events.length : Int)
  exact_mod_cast hle

/-- C10. Whenever the ticker lookup for the rule's exchange fails, or the last price of
its pair is zero, or the ticker does not list the pair, `CheckCondition` never returns
`true` and never invokes `ExecuteAction`, whatever the operator and the threshold are;
and for every rule that has an operator and a threshold (a condition with a comma) it
returns `false`. -/
theorem CheckCondition_unavailable (env : Env) (e : Event)
    (h : env.GetTickerByExchange e.Exchange = none ∨
      ∃ ticker, env.GetTickerByExchange e.Exchange = some ticker ∧
        (F64.eq (ticker.last e.FirstCurrency e.SecondCurrency) F64.zero = true ∨
         (∀ kv ∈ ticker.Price, kv.1 ≠ e.FirstCurrency) ∨
         (∀ kv ∈ mapGet [] ticker.Price e.FirstCurrency, kv.1 ≠ e.SecondCurrency))) :
    (∀ r, CheckCondition env e = some r → r = (false, [Call.CheckCondition])) ∧
    (StringContains e.Condition "," = true →
      CheckCondition env e = some (false, [Call.CheckCondition])) := by
  have h2 : env.GetTickerByExchange e.Exchange = none ∨
      ∃ ticker, env.GetTickerByExchange e.Exchange = some ticker ∧
        F64.eq (ticker.last e.FirstCurrency e.SecondCurrency) F64.zero = true := by
    rcases h with h | ⟨ticker, ht, hz | habs⟩
    · exact Or.inl h
    · exact Or.inr ⟨ticker, ht, hz⟩
    · exact Or.inr ⟨ticker, ht, by
        rw [Ticker_last_absent ticker _ _ habs]
        exact F64_eq_zero_zero⟩
  rw [CheckCondition_skip env e h2]
  constructor
  · intro r hr
    cases hi : idx (SplitStrings e.Condition ",") 1 with
    | none => simp [hi] at hr
    | some c1 =>
      simp [hi] at hr
      exact hr.symm
  · intro hc
    obtain ⟨a, b, rest, hab⟩ := SplitStrings_of_contains _ hc
    simp [hab, idx_one_cons]

theorem CheckCondition_unavailable_witness :
    CheckCondition (sampleEnv (F64.fin 0)) (sampleRule 0 "<,5" false) =
      some (false, [Call.CheckCondition]) ∧
    CheckCondition (sampleEnv (F64.fin 0)) (sampleRule 0 "<=,0" false) =
      some (false, [Call.CheckCondition]) ∧
    CheckCondition (sampleEnv (F64.fin 3))
        (Event.mk 0 "Bitstamp" "PRICE" "<,5" "ETH" "EUR" "CONSOLE_PRINT" false) =
      some (false, [Call.CheckCondition]) ∧
    CheckCondition (sampleEnv (F64.fin 3))
        (Event.mk 0 "Kraken" "PRICE" "<,5" "BTC" "USD" "CONSOLE_PRINT" false) =
      some (false, [Call.CheckCondition]) :=
  ⟨(CheckCondition_unavailable (sampleEnv (F64.fin 0)) (sampleRule 0 "<,5" false)
      (Or.inr ⟨Ticker.mk [("BTC", [("USD", TickerPrice.mk (F64.fin 0))])], by rfl,
        Or.inl (by decide)⟩)).2 (by decide),
   (CheckCondition_unavailable (sampleEnv (F64.fin 0)) (sampleRule 0 "<=,0" false)
      (Or.inr ⟨Ticker.mk [("BTC", [("USD", TickerPrice.mk (F64.fin 0))])], by rfl,
        Or.inl (by decide)⟩)).2 (by decide),
   (CheckCondition_unavailable (sampleEnv (F64.fin 3))
      (Event.mk 0 "Bitstamp" "PRICE" "<,5" "ETH" "EUR" "CONSOLE_PRINT" false)
      (Or.inr ⟨Ticker.mk [("BTC", [("USD", TickerPrice.mk (F64.fin 3))])], by rfl,
        Or.inr (Or.inl (by decide))⟩)).2 (by decide),
   (CheckCondition_unavailable (sampleEnv (F64.fin 3))
      (Event.mk 0 "Kraken" "PRICE" "<,5" "BTC" "USD" "CONSOLE_PRINT" false)
      (Or.inl (by rfl))).2 (by decide)⟩

/-! ## Lemmas for validation, cycles and reachability -/

/-! ### Validation -/

theorem IsValidExchange_iff (env : Env) (Exchange : String) :
    IsValidExchange env Exchange = true ↔ exchangeEnabled env Exchange := by
  simp [IsValidExchange, exchangeEnabled, List.any_eq_true]

theorem IsValidCondition_iff (s : String) : IsValidCondition s = true ↔ isOperator s := by
  simp [IsValidCondition, isOperator, GREATER_THAN, GREATER_THAN_OR_EQUAL, LESS_THAN,
    LESS_THAN_OR_EQUAL, IS_EQUAL, or_assoc]

theorem IsValidItem_iff (s : String) : IsValidItem s = true ↔ s = "PRICE" := by
  simp [IsValidItem, ITEM_PRICE]

theorem length_eq_zero_iff (s : String) : s.length = 0 ↔ s = "" := by
  constructor
  · intro h
    apply String.ext
    have hlen : s.data.length = 0 := h
    show s.data = []
    exact List.length_eq_zero.1 hlen
  · intro h
    subst h
    rfl

/-- The part of `IsValidEvent` that looks at the action. -/
theorem IsValidEvent_of_condition (env : Env) (Exchange Item Condition Action c0 c1 : String)
    (rest : List String)
    (hex : exchangeEnabled env Exchange) (hitem : Item = "PRICE")
    (hsplit : SplitStrings Condition "," = c0 :: c1 :: rest)
    (hop : isOperator c0) (hthr : c1 ≠ "") :
    IsValidEvent env Exchange Item Condition Action =
      if StringContains Action "," = true then
        (idx (SplitStrings Action ",") 0).bind fun a0 =>
        if a0 ≠ "SMS" then some (some Err.ErrInvalidAction)
        else
        (idx (SplitStrings Action ",") 1).bind fun a1 =>
        if a1 ≠ "ALL" ∧ env.SMSGetNumberByName a1 = env.ErrSMSContactNotFound then
          some (some Err.ErrInvalidAction)
        else some none
      else if Action ≠ "CONSOLE_PRINT" then some (some Err.ErrInvalidAction)
      else some none := by
  have h1 := (IsValidExchange_iff env Exchange).2 hex
  have h2 := (IsValidItem_iff Item).2 hitem
  have h3 := contains_of_split _ _ _ _ hsplit
  have h4 := (IsValidCondition_iff c0).2 hop
  have h5 : ¬ (c1.length = 0) := fun h => hthr ((length_eq_zero_iff c1).1 h)
  unfold IsValidEvent
  simp only [h1, h2, h3, hsplit, idx_zero_cons, idx_one_cons, Option.some_bind, h4,
    Bool.not_true, Bool.false_eq_true, if_false, beq_iff_eq, h5, ACTION_SMS_NOTIFY,
    ACTION_CONSOLE_PRINT, bne_iff_ne, ne_eq, Bool.and_eq_true, decide_eq_true_eq]

/-- What passing validation tells about the arguments. -/
theorem IsValidEvent_ok (env : Env) (Exchange Item Condition Action : String)
    (h : IsValidEvent env Exchange Item Condition Action = some none) :
    exchangeEnabled env Exchange ∧ Item = "PRICE" ∧
    (∃ c0 c1 rest, SplitStrings Condition "," = c0 :: c1 :: rest ∧ isOperator c0 ∧ c1 ≠ "") ∧
    (Action = "CONSOLE_PRINT" ∨
      ∃ target rest, SplitStrings Action "," = "SMS" :: target :: rest ∧
        (target = "ALL" ∨ env.SMSGetNumberByName target ≠ env.ErrSMSContactNotFound)) := by
  unfold IsValidEvent at h
  by_cases h1 : IsValidExchange env Exchange = true
  swap
  · simp [h1] at h
  by_cases h2 : IsValidItem Item = true
  swap
  · simp [h1, h2] at h
  by_cases h3 : StringContains Condition "," = true
  swap
  · simp [h1, h2, h3] at h
  obtain ⟨c0, c1, rest, hsplit⟩ := SplitStrings_of_contains _ h3
  simp only [h1, h2, h3, hsplit, idx_zero_cons, idx_one_cons, Option.some_bind,
    Bool.not_true, Bool.false_eq_true, if_false] at h
  by_cases h4 : IsValidCondition c0 = true
  swap
  · simp [h4] at h
  by_cases h5 : c1.length = 0
  · simp [h4, h5] at h
  have hc1 : c1 ≠ "" := fun hc => h5 ((length_eq_zero_iff c1).2 hc)
  refine ⟨(IsValidExchange_iff _ _).1 h1, (IsValidItem_iff _).1 h2,
    ⟨c0, c1, rest, hsplit, (IsValidCondition_iff _).1 h4, hc1⟩, ?_⟩
  simp only [h4, h5, Bool.not_true, Bool.false_eq_true, if_false, beq_iff_eq] at h
  by_cases h6 : StringContains Action "," = true
  · obtain ⟨a0, a1, more, hact⟩ := SplitStrings_of_contains _ h6
    simp only [h6, if_true, hact, idx_zero_cons, idx_one_cons, Option.some_bind,
      ACTION_SMS_NOTIFY] at h
    by_cases h7 : a0 = "SMS"
    · subst h7
      right
      refine ⟨a1, more, hact, ?_⟩
      by_cases h8 : a1 = "ALL"
      · exact Or.inl h8
      · right
        intro h9
        simp [h8, h9] at h
    · simp [h7] at h
  · left
    by_contra h7
    simp [h6, ACTION_CONSOLE_PRINT, h7] at h

/-! ### Evaluation against the specification's notion of a match -/

theorem conditionMatches_of_split (env : Env) (e : Event) (c0 c1 : String) (rest : List String)
    (hsplit : SplitStrings e.Condition "," = c0 :: c1 :: rest) :
    conditionMatches env e =
      match env.GetTickerByExchange e.Exchange with
      | some ticker =>
        !(F64.eq (ticker.last e.FirstCurrency e.SecondCurrency) F64.zero) &&
          opHolds c0 (ticker.last e.FirstCurrency e.SecondCurrency) (env.ParseFloat c1).1
      | none => false := by
  unfold conditionMatches
  rw [hsplit, idx_zero_cons, idx_one_cons]
  cases env.GetTickerByExchange e.Exchange <;> rfl

/-- For a rule whose condition has two tokens, `CheckCondition` returns whether the
condition matches, and enters `ExecuteAction` once when it does and not at all when
it does not. -/
theorem CheckCondition_matches (env : Env) (e : Event)
    (h : StringContains e.Condition "," = true) :
    ∃ calls, CheckCondition env e = some (conditionMatches env e, calls) ∧
      calls.filter (fun c => decide (c = Call.ExecuteAction)) =
        if conditionMatches env e = true then [Call.ExecuteAction] else [] := by
  obtain ⟨c0, c1, rest, hsplit⟩ := SplitStrings_of_contains _ h
  have hi : idx (SplitStrings e.Condition ",") 1 = some c1 := by rw [hsplit, idx_one_cons]
  rw [conditionMatches_of_split env e c0 c1 rest hsplit]
  cases ht : env.GetTickerByExchange e.Exchange with
  | none =>
    refine ⟨[Call.CheckCondition], ?_, by simp⟩
    rw [CheckCondition_skip env e (Or.inl ht), hi]
    rfl
  | some ticker =>
    by_cases hz : F64.eq (ticker.last e.FirstCurrency e.SecondCurrency) F64.zero = true
    · refine ⟨[Call.CheckCondition], ?_, by simp [hz]⟩
      rw [CheckCondition_skip env e (Or.inr ⟨ticker, ht, hz⟩), hi]
      simp [hz]
    · have hz2 : F64.eq (ticker.last e.FirstCurrency e.SecondCurrency) F64.zero = false := by
        simpa using hz
      obtain ⟨tr, htr, h1, -⟩ := returnExecuteAction_spec env e h
      rw [CheckCondition_eq env e c0 c1 rest ticker hsplit ht hz2]
      by_cases hh : opHolds c0 (ticker.last e.FirstCurrency e.SecondCurrency)
          (env.ParseFloat c1).1 = true
      · refine ⟨Call.CheckCondition :: Call.ExecuteAction :: tr, by simp [hh, hz2, htr], ?_⟩
        have hnil : tr.filter (fun c => decide (c = Call.ExecuteAction)) = [] := by
          rw [List.filter_eq_nil_iff]
          intro a ha
          simp only [decide_eq_true_eq]
          intro hae
          exact h1 (hae ▸ ha)
        simp [hh, hz2, List.filter_cons, hnil]
      · refine ⟨[Call.CheckCondition], by simp [hh, hz2], by simp [hh, hz2]⟩

theorem CheckCondition_isSome (env : Env) (e : Event)
    (h : StringContains e.Condition "," = true) : ∃ r, CheckCondition env e = some r := by
  obtain ⟨calls, hc, -⟩ := CheckCondition_matches env e h
  exact ⟨_, hc⟩

theorem dispatchOrder_append (a b : List (Nat × Call)) :
    dispatchOrder (a ++ b) = dispatchOrder a ++ dispatchOrder b := by
  simp [dispatchOrder]

theorem dispatchOrder_calls (k : Nat) (calls : List Call) :
    dispatchOrder (calls.map fun c => (k, c)) =
      (calls.filter fun c => decide (c = Call.ExecuteAction)).map fun _ => k := by
  induction calls with
  | nil => rfl
  | cons c cs ih =>
    simp only [dispatchOrder] at ih
    by_cases hc : c = Call.ExecuteAction
    · simp [dispatchOrder, List.filter_cons, hc, ih]
    · simp [dispatchOrder, List.filter_cons, hc, ih]

theorem pendingMatches_cons (env : Env) (k : Nat) (e : Event) (rest : List Event) :
    pendingMatches env k (e :: rest) =
      if (!e.Executed && conditionMatches env e) = true
      then k :: pendingMatches env (k + 1) rest else pendingMatches env (k + 1) rest := by
  by_cases h : (!e.Executed && conditionMatches env e) = true
  · simp [pendingMatches, List.enumFrom_cons, List.filter_cons, h]
  · simp [pendingMatches, List.enumFrom_cons, List.filter_cons, h]

/-- One pass over a registry whose pending rules all have a two-token condition: it
does not panic, it marks exactly the pending rules whose condition matches, and it
enters `ExecuteAction` for exactly these rules, once each, in registry order. -/
theorem checkLoop_spec (env : Env) (k : Nat) (evs : List Event)
    (hwf : ∀ e ∈ evs, e.Executed = false → StringContains e.Condition "," = true) :
    (checkLoop env k evs).panicked = false ∧
    (checkLoop env k evs).Events = evs.map (markExecuted env) ∧
    dispatchOrder (checkLoop env k evs).trace = pendingMatches env k evs := by
  induction evs generalizing k with
  | nil => simp [checkLoop, dispatchOrder, pendingMatches]
  | cons y rest ih =>
    obtain ⟨ih1, ih2, ih3⟩ := ih (k + 1) (fun e he => hwf e (List.mem_cons_of_mem _ he))
    rw [pendingMatches_cons]
    cases hy : y.Executed with
    | true =>
      rw [checkLoop_executed env k y rest hy]
      simp [ih1, ih2, ih3, markExecuted, hy]
    | false =>
      obtain ⟨calls, hc, hf⟩ := CheckCondition_matches env y (hwf y (List.mem_cons_self _ _) hy)
      cases hm : conditionMatches env y with
      | true =>
        rw [hm] at hc hf
        rw [checkLoop_fire env k y rest calls hy hc]
        have hlog : ∀ (m : String) (t : List (Nat × Call)),
            dispatchOrder ((k, Call.logPrintf m) :: t) = dispatchOrder t := by
          intro m t
          simp [dispatchOrder, List.filter_cons]
        simp only [dispatchOrder_append, hlog, dispatchOrder_calls, hf, ih1, ih2, ih3]
        simp [markExecuted, hy, hm]
      | false =>
        rw [hm] at hc hf
        rw [checkLoop_skip env k y rest calls hy hc]
        simp only [dispatchOrder_append, dispatchOrder_calls, hf, ih1, ih2, ih3]
        simp [markExecuted, hy, hm]

/-- When the guard of `CheckEvents` skips the pass, no rule is pending. -/
theorem guard_false_all_executed (Events : List Event)
    (h : ¬ (((GetEventCounter Events).1 > 0 && (GetEventCounter Events).2 != (GetEventCounter Events).1)
      = true)) : ∀ e ∈ Events, e.Executed = true := by
  rw [GetEventCounter_eq] at h
  simp only [Bool.and_eq_true, decide_eq_true_eq, bne_iff_ne, ne_eq, not_and, not_not] at h
  cases Events with
  | nil => simp
  | cons x xs =>
    have hpos : ((x :: xs).length : Int) > 0 := by
      simp only [List.length_cons]
      omega
    have heq := h hpos
    have heq2 : List.countP (fun e : Event => e.Executed) (x :: xs) = (x :: xs).length := by
      exact_mod_cast heq
    rw [List.countP_eq_length] at heq2
    intro e he
    simpa using heq2 e he

theorem map_markExecuted_of_all_executed (env : Env) (Events : List Event)
    (h : ∀ e ∈ Events, e.Executed = true) : Events.map (markExecuted env) = Events := by
  induction Events with
  | nil => rfl
  | cons x xs ih =>
    have hx := h x (List.mem_cons_self _ _)
    simp [markExecuted, hx, ih (fun e he => h e (List.mem_cons_of_mem _ he))]

theorem pendingMatches_of_all_executed (env : Env) (k : Nat) (Events : List Event)
    (h : ∀ e ∈ Events, e.Executed = true) : pendingMatches env k Events = [] := by
  induction Events generalizing k with
  | nil => rfl
  | cons x xs ih =>
    have hx := h x (List.mem_cons_self _ _)
    rw [pendingMatches_cons]
    simp [hx, ih (k + 1) (fun e he => h e (List.mem_cons_of_mem _ he))]

theorem CheckEventsCycle_spec (env : Env) (Events : List Event)
    (hwf : ∀ e ∈ Events, e.Executed = false → StringContains e.Condition "," = true) :
    (CheckEventsCycle env Events).panicked = false ∧
    (CheckEventsCycle env Events).Events = Events.map (markExecuted env) ∧
    dispatchOrder (CheckEventsCycle env Events).trace = pendingMatches env 0 Events := by
  by_cases hg : ((GetEventCounter Events).1 > 0 &&
      (GetEventCounter Events).2 != (GetEventCounter Events).1) = true
  · have : CheckEventsCycle env Events = checkLoop env 0 Events := by
      unfold CheckEventsCycle
      simp only [hg, if_true]
    rw [this]
    exact checkLoop_spec env 0 Events hwf
  · have : CheckEventsCycle env Events =
        { Events := Events, trace := [], panicked := false } := by
      unfold CheckEventsCycle
      simp only [hg]
      rfl
    have hall := guard_false_all_executed Events hg
    rw [this]
    simp [map_markExecuted_of_all_executed env Events hall,
      pendingMatches_of_all_executed env 0 Events hall, dispatchOrder]

/-! ### What the operations preserve -/

theorem flagOnly_refl (e : Event) : flagOnly e e := Or.inl rfl

theorem forall₂_flagOnly_refl (evs : List Event) : List.Forall₂ flagOnly evs evs := by
  induction evs with
  | nil => exact List.Forall₂.nil
  | cons x xs ih => exact List.Forall₂.cons (flagOnly_refl x) ih

/-- A pass changes nothing but flags, and only from unset to set. -/
theorem checkLoop_flagOnly (env : Env) (k : Nat) (evs : List Event) :
    List.Forall₂ flagOnly evs (checkLoop env k evs).Events := by
  induction evs generalizing k with
  | nil =>
    simp [checkLoop]
  | cons y rest ih =>
    rcases checkLoop_cases env k y rest with ⟨-, h⟩ | ⟨-, -, h⟩ | ⟨c, hy, -, h⟩ | ⟨c, -, -, h⟩
    · rw [h]
      exact List.Forall₂.cons (flagOnly_refl y) (ih (k + 1))
    · rw [h]
      exact forall₂_flagOnly_refl _
    · rw [h]
      exact List.Forall₂.cons (Or.inr ⟨hy, rfl⟩) (ih (k + 1))
    · rw [h]
      exact List.Forall₂.cons (flagOnly_refl y) (ih (k + 1))

theorem CheckEventsCycle_flagOnly (env : Env) (Events : List Event) :
    List.Forall₂ flagOnly Events (CheckEventsCycle env Events).Events := by
  rcases CheckEventsCycle_cases env Events with h | h <;> rw [h]
  · exact checkLoop_flagOnly env 0 Events
  · exact forall₂_flagOnly_refl _

theorem flagOnly_fields (e e2 : Event) (h : flagOnly e e2) :
    { e2 with Executed := e.Executed } = e := by
  rcases h with h | ⟨-, h⟩ <;> subst h <;> rfl

theorem forall₂_getElem? {α β : Type} (R : α → β → Prop) (l1 : List α) (l2 : List β)
    (h : List.Forall₂ R l1 l2) (j : Nat) (a : α) (ha : l1[j]? = some a) :
    ∃ b, l2[j]? = some b ∧ R a b := by
  induction h generalizing j with
  | nil => simp at ha
  | cons hab _ ih =>
    cases j with
    | zero =>
      simp at ha
      subst ha
      exact ⟨_, by simp, hab⟩
    | succ j =>
      simp at ha
      simpa using ih j ha

theorem forall₂_mem_right {α β : Type} (R : α → β → Prop) (l1 : List α) (l2 : List β)
    (h : List.Forall₂ R l1 l2) (b : β) (hb : b ∈ l2) : ∃ a ∈ l1, R a b := by
  induction h with
  | nil => simp at hb
  | cons hab _ ih =>
    rcases List.mem_cons.1 hb with hb | hb
    · subst hb
      exact ⟨_, List.mem_cons_self _ _, hab⟩
    · obtain ⟨a, ha, hr⟩ := ih hb
      exact ⟨a, List.mem_cons_of_mem _ ha, hr⟩

theorem ruleValid_flagOnly (env : Env) (e e2 : Event) (h : flagOnly e e2)
    (hv : ruleValid env e) : ruleValid env e2 := by
  rcases h with h | ⟨-, h⟩ <;> subst h
  · exact hv
  · exact hv

theorem ruleValid_contains (env : Env) (e : Event) (hv : ruleValid env e) :
    StringContains e.Condition "," = true := by
  obtain ⟨-, ⟨c0, c1, rest, hsplit, -, -⟩, -⟩ := hv
  exact contains_of_split _ _ _ _ hsplit

theorem AddEvent_cases (env : Env) (Events : List Event)
    (x i c f s a : String) (r : (Int × Option Err) × List Event)
    (h : AddEvent env Events x i c f s a = some r) :
    (∃ err, IsValidEvent env x i c a = some (some err) ∧ r = ((0, some err), Events)) ∨
    (IsValidEvent env x i c a = some none ∧
      r = ((idAt Events.length, none),
        Events ++ [Event.mk (idAt Events.length) x i c f s a false])) := by
  cases hv : IsValidEvent env x i c a with
  | none => simp [AddEvent, hv] at h
  | some err =>
    cases err with
    | some err =>
      left
      refine ⟨err, rfl, ?_⟩
      simp [AddEvent, hv] at h
      exact h.symm
    | none =>
      right
      refine ⟨rfl, ?_⟩
      rw [AddEvent_of_valid env Events x i c f s a hv] at h
      simp only [Option.some.injEq] at h
      rw [← h]
      simp [idAt]

/-- Every operation keeps the registry within the rules the specification allows. -/
theorem stepSystem_valid (env : Env) (Events evs2 : List Event) (op : SystemOp)
    (hv : ∀ e ∈ Events, ruleValid env e) (h : stepSystem env Events op = some evs2) :
    ∀ e ∈ evs2, ruleValid env e := by
  cases op with
  | add x i c f s a =>
    simp only [stepSystem, Option.map_eq_some'] at h
    obtain ⟨r, hr, hr2⟩ := h
    subst hr2
    rcases AddEvent_cases env Events x i c f s a r hr with ⟨err, -, h2⟩ | ⟨hok, h2⟩
    · subst h2
      exact hv
    · subst h2
      intro e he
      simp only [List.mem_append, List.mem_singleton] at he
      rcases he with he | he
      · exact hv e he
      · subst he
        obtain ⟨-, h1, h2, h3⟩ := IsValidEvent_ok env x i c a hok
        exact ⟨h1, h2, h3⟩
  | remove n =>
    simp only [stepSystem, Option.some.injEq] at h
    subst h
    intro e he
    rw [RemoveEvent_eq] at he
    split at he
    · exact hv e (List.mem_of_mem_eraseP he)
    · exact hv e he
  | cycle feed =>
    simp only [stepSystem] at h
    split at h
    · exact Option.noConfusion h
    · simp only [Option.some.injEq] at h
      subst h
      intro e he
      obtain ⟨e0, he0, hr⟩ := forall₂_mem_right _ _ _ (CheckEventsCycle_flagOnly feed Events) e he
      exact ruleValid_flagOnly env e0 e hr (hv e0 he0)

theorem runSystem_valid (env : Env) (ops : List SystemOp) (Events evs2 : List Event)
    (hv : ∀ e ∈ Events, ruleValid env e) (h : runSystem env Events ops = some evs2) :
    ∀ e ∈ evs2, ruleValid env e := by
  induction ops generalizing Events with
  | nil =>
    simp only [runSystem, Option.some.injEq] at h
    subst h
    exact hv
  | cons op ops ih =>
    simp only [runSystem, Option.bind_eq_some] at h
    obtain ⟨mid, hmid, hrest⟩ := h
    exact ih mid (stepSystem_valid env Events mid op hv hmid) hrest

/-! ### Ids handed out by a run of successful registrations -/

theorem addMany_ids (env : Env) (args : List AddArgs) (Events : List Event)
    (hok : ∀ a ∈ args, IsValidEvent env a.Exchange a.Item a.Condition a.Action = some none) :
    ∃ evs, addMany env Events args =
        some ((List.range args.length).map (fun k => idAt (Events.length + k)), evs) ∧
      evs.length = Events.length + args.length := by
  induction args generalizing Events with
  | nil => exact ⟨Events, by simp [addMany], by simp⟩
  | cons a rest ih =>
    have ha := hok a (List.mem_cons_self _ _)
    obtain ⟨evs, h1, h2⟩ := ih (Events ++ [Event.mk (idAt Events.length) a.Exchange a.Item
      a.Condition a.FirstCurrency a.SecondCurrency a.Action false])
      (fun b hb => hok b (List.mem_cons_of_mem _ hb))
    have hlen : (Events ++ [Event.mk (idAt Events.length) a.Exchange a.Item
        a.Condition a.FirstCurrency a.SecondCurrency a.Action false]).length =
        Events.length + 1 := by simp
    rw [hlen] at h1 h2
    have hadd := AddEvent_of_valid env Events a.Exchange a.Item a.Condition a.FirstCurrency
      a.SecondCurrency a.Action ha
    have hid : (if Events.length = 0 then (0 : Int) else (Events.length : Int) + 1) =
        idAt Events.length := rfl
    rw [hid] at hadd
    have hmap : List.map (fun k => idAt (Events.length + k)) (List.range (rest.length + 1)) =
        idAt Events.length ::
          List.map (fun k => idAt (Events.length + 1 + k)) (List.range rest.length) := by
      rw [List.range_succ_eq_map, List.map_cons, List.map_map]
      congr 1
      apply List.map_congr_left
      intro k _
      show idAt (Events.length + (k + 1)) = idAt (Events.length + 1 + k)
      congr 1
      omega
    refine ⟨evs, ?_, ?_⟩
    · simp only [addMany, hadd, Option.some_bind, h1, Option.map_some', List.length_cons, hmap]
    · rw [h2, List.length_cons]
      omega

theorem idAt_lt (m n : Nat) (h : m < n) : idAt m < idAt n := by
  unfold idAt
  split <;> split <;> omega

theorem idAt_ne_one (n : Nat) : idAt n ≠ 1 := by
  unfold idAt
  split <;> omega

/-! ## The claims on validation, reachable registries and whole cycles -/

/-- C11. For an enabled exchange and the item `PRICE`, whatever the action is,
`IsValidEvent` returns `ErrInvalidCondition` (and `AddEvent` returns it with id 0 and
an unchanged registry) whenever the condition has no comma, or its first token is not
one of the five operators, or its second token is empty. -/
theorem IsValidEvent_invalid_condition (env : Env) (Events : List Event)
    (Exchange Item Condition FirstCurrency SecondCurrency Action : String)
    (hex : exchangeEnabled env Exchange) (hitem : Item = "PRICE")
    (h : StringContains Condition "," = false ∨
      (∃ c0, idx (SplitStrings Condition ",") 0 = some c0 ∧ ¬ isOperator c0) ∨
      idx (SplitStrings Condition ",") 1 = some "") :
    IsValidEvent env Exchange Item Condition Action = some (some Err.ErrInvalidCondition) ∧
    AddEvent env Events Exchange Item Condition FirstCurrency SecondCurrency Action =
      some ((0, some Err.ErrInvalidCondition), Events) := by
  have h1 := (IsValidExchange_iff env Exchange).2 hex
  have h2 := (IsValidItem_iff Item).2 hitem
  have key : IsValidEvent env Exchange Item Condition Action =
      some (some Err.ErrInvalidCondition) := by
    unfold IsValidEvent
    by_cases h3 : StringContains Condition "," = true
    · obtain ⟨c0, c1, rest, hsplit⟩ := SplitStrings_of_contains _ h3
      simp only [h1, h2, h3, hsplit, idx_zero_cons, idx_one_cons, Option.some_bind,
        Bool.not_true, Bool.false_eq_true, if_false]
      by_cases h4 : IsValidCondition c0 = true
      · have hc1 : c1 = "" := by
          rcases h with h | ⟨d0, hd, hnot⟩ | h
          · rw [h3] at h
            exact Bool.noConfusion h
          · rw [hsplit, idx_zero_cons] at hd
            have : c0 = d0 := by simpa using hd
            subst this
            exact absurd ((IsValidCondition_iff _).1 h4) hnot
          · rw [hsplit, idx_one_cons] at h
            simpa using h
        subst hc1
        simp [h4]
      · simp [h4]
    · simp [h1, h2, h3]
  exact ⟨key, by simp [AddEvent, key]⟩

theorem IsValidEvent_invalid_condition_witness :
    IsValidEvent (sampleEnv (F64.fin 150)) "Bitstamp" "PRICE" "~,10" "SMS,ALL" =
      some (some Err.ErrInvalidCondition) ∧
    AddEvent (sampleEnv (F64.fin 150)) [sampleRule 0 ">,100" false]
        "Bitstamp" "PRICE" "~,10" "BTC" "USD" "SMS,ALL" =
      some ((0, some Err.ErrInvalidCondition), [sampleRule 0 ">,100" false]) :=
  IsValidEvent_invalid_condition (sampleEnv (F64.fin 150)) [sampleRule 0 ">,100" false]
    "Bitstamp" "PRICE" "~,10" "BTC" "USD" "SMS,ALL"
    ⟨ExchangeInfo.mk "Bitstamp" true, by decide, rfl, rfl⟩ rfl
    (Or.inr (Or.inl ⟨"~", by decide, by unfold isOperator; decide⟩))

/-- C12. For an enabled exchange, the item `PRICE` and a valid condition: an action whose
tokens are `SMS` and a name other than `ALL` that the contact lookup does not resolve is
rejected with `ErrInvalidAction`; `SMS,ALL` is accepted whatever the contact directory
holds; `CONSOLE_PRINT` is accepted; a comma-free action other than `CONSOLE_PRINT` (such
as a bare `SMS`) and an action with a comma whose first token is not `SMS` are rejected
with `ErrInvalidAction`. -/
theorem IsValidEvent_action (env : Env) (Exchange Item Condition Action c0 c1 : String)
    (rest : List String)
    (hex : exchangeEnabled env Exchange) (hitem : Item = "PRICE")
    (hsplit : SplitStrings Condition "," = c0 :: c1 :: rest)
    (hop : isOperator c0) (hthr : c1 ≠ "") :
    (∀ name more, SplitStrings Action "," = "SMS" :: name :: more → name ≠ "ALL" →
        env.SMSGetNumberByName name = env.ErrSMSContactNotFound →
        IsValidEvent env Exchange Item Condition Action = some (some Err.ErrInvalidAction)) ∧
    (Action = "SMS,ALL" → IsValidEvent env Exchange Item Condition Action = some none) ∧
    (Action = "CONSOLE_PRINT" →
        IsValidEvent env Exchange Item Condition Action = some none) ∧
    (StringContains Action "," = false → Action ≠ "CONSOLE_PRINT" →
        IsValidEvent env Exchange Item Condition Action = some (some Err.ErrInvalidAction)) ∧
    (∀ a0 a1 more, SplitStrings Action "," = a0 :: a1 :: more → a0 ≠ "SMS" →
        IsValidEvent env Exchange Item Condition Action = some (some Err.ErrInvalidAction)) := by
  rw [IsValidEvent_of_condition env Exchange Item Condition Action c0 c1 rest hex hitem hsplit
    hop hthr]
  refine ⟨?_, ?_, ?_, ?_, ?_⟩
  · intro name more hact hname hlookup
    have hc := contains_of_split _ _ _ _ hact
    simp [hc, hact, idx_zero_cons, idx_one_cons, hname, hlookup]
  · intro hA
    subst hA
    have hc : StringContains "SMS,ALL" "," = true := by decide
    have hs : SplitStrings "SMS,ALL" "," = ["SMS", "ALL"] := by decide
    simp [hc, hs, idx_zero_cons, idx_one_cons]
  · intro hA
    subst hA
    have hc : StringContains "CONSOLE_PRINT" "," = false := by decide
    simp [hc]
  · intro hc hA
    simp [hc, hA]
  · intro a0 a1 more hact ha0
    have hc := contains_of_split _ _ _ _ hact
    simp [hc, hact, idx_zero_cons, ha0]

theorem IsValidEvent_action_witness :
    IsValidEvent (sampleEnv (F64.fin 150)) "Bitstamp" "PRICE" ">,100" "SMS,UNKNOWN_CONTACT" =
      some (some Err.ErrInvalidAction) ∧
    IsValidEvent emptyDirectoryEnv "Bitstamp" "PRICE" ">,100" "SMS,ALL" = some none ∧
    IsValidEvent (sampleEnv (F64.fin 150)) "Bitstamp" "PRICE" ">,100" "CONSOLE_PRINT" =
      some none ∧
    IsValidEvent (sampleEnv (F64.fin 150)) "Bitstamp" "PRICE" ">,100" "SMS" =
      some (some Err.ErrInvalidAction) ∧
    IsValidEvent (sampleEnv (F64.fin 150)) "Bitstamp" "PRICE" ">,100" "EMAIL,bob" =
      some (some Err.ErrInvalidAction) :=
  ⟨(IsValidEvent_action (sampleEnv (F64.fin 150)) "Bitstamp" "PRICE" ">,100"
      "SMS,UNKNOWN_CONTACT" ">" "100" [] ⟨ExchangeInfo.mk "Bitstamp" true, by decide, rfl, rfl⟩
      rfl (by decide) (Or.inl rfl) (by decide)).1 "UNKNOWN_CONTACT" [] (by decide) (by decide)
      (by decide),
   (IsValidEvent_action emptyDirectoryEnv "Bitstamp" "PRICE" ">,100"
      "SMS,ALL" ">" "100" [] ⟨ExchangeInfo.mk "Bitstamp" true, by decide, rfl, rfl⟩
      rfl (by decide) (Or.inl rfl) (by decide)).2.1 rfl,
   (IsValidEvent_action (sampleEnv (F64.fin 150)) "Bitstamp" "PRICE" ">,100"
      "CONSOLE_PRINT" ">" "100" [] ⟨ExchangeInfo.mk "Bitstamp" true, by decide, rfl, rfl⟩
      rfl (by decide) (Or.inl rfl) (by decide)).2.2.1 rfl,
   (IsValidEvent_action (sampleEnv (F64.fin 150)) "Bitstamp" "PRICE" ">,100"
      "SMS" ">" "100" [] ⟨ExchangeInfo.mk "Bitstamp" true, by decide, rfl, rfl⟩
      rfl (by decide) (Or.inl rfl) (by decide)).2.2.2.1 (by decide) (by decide),
   (IsValidEvent_action (sampleEnv (F64.fin 150)) "Bitstamp" "PRICE" ">,100"
      "EMAIL,bob" ">" "100" [] ⟨ExchangeInfo.mk "Bitstamp" true, by decide, rfl, rfl⟩
      rfl (by decide) (Or.inl rfl) (by decide)).2.2.2.2 "EMAIL" "bob" [] (by decide)
      (by decide)⟩

/-- C13. `IsValidEvent` returns `ErrExchangeDisabled` whenever no exchange of the list has
both the given name and the enabled flag, whatever item, condition and action are; and
it returns `ErrInvalidItem` whenever the exchange is known and enabled and the item is
not `PRICE`, whatever condition and action are. -/
theorem IsValidEvent_exchange_item (env : Env) (Exchange Item Condition Action : String) :
    (¬ exchangeEnabled env Exchange →
      IsValidEvent env Exchange Item Condition Action = some (some Err.ErrExchangeDisabled)) ∧
    (exchangeEnabled env Exchange → Item ≠ "PRICE" →
      IsValidEvent env Exchange Item Condition Action = some (some Err.ErrInvalidItem)) := by
  constructor
  · intro h
    have h1 : ¬ (IsValidExchange env Exchange = true) := fun hh =>
      h ((IsValidExchange_iff env Exchange).1 hh)
    simp [IsValidEvent, h1]
  · intro h hitem
    have h1 := (IsValidExchange_iff env Exchange).2 h
    have h2 : ¬ (IsValidItem Item = true) := fun hh => hitem ((IsValidItem_iff Item).1 hh)
    simp [IsValidEvent, h1, h2]

theorem IsValidEvent_exchange_item_witness :
    IsValidEvent (sampleEnv (F64.fin 150)) "Kraken" "PRICE" ">,100" "CONSOLE_PRINT" =
      some (some Err.ErrExchangeDisabled) ∧
    IsValidEvent (sampleEnv (F64.fin 150)) "Unknown" "VOLUME" "" "" =
      some (some Err.ErrExchangeDisabled) ∧
    IsValidEvent (sampleEnv (F64.fin 150)) "Bitstamp" "VOLUME" ">,100" "CONSOLE_PRINT" =
      some (some Err.ErrInvalidItem) :=
  ⟨(IsValidEvent_exchange_item (sampleEnv (F64.fin 150)) "Kraken" "PRICE" ">,100"
      "CONSOLE_PRINT").1 (by simp [exchangeEnabled, sampleEnv]),
   (IsValidEvent_exchange_item (sampleEnv (F64.fin 150)) "Unknown" "VOLUME" "" "").1
      (by simp [exchangeEnabled, sampleEnv]),
   (IsValidEvent_exchange_item (sampleEnv (F64.fin 150)) "Bitstamp" "VOLUME" ">,100"
      "CONSOLE_PRINT").2 ⟨ExchangeInfo.mk "Bitstamp" true, by decide, rfl, rfl⟩ (by decide)⟩

/-- C14. With the exchange list and the contact directory fixed, every rule of every
registry reached from the empty one by `AddEvent`, `RemoveEvent` and evaluation cycles
has the item `PRICE`, a condition whose first token is one of the five operators and
whose second token is not empty, and an action that is `CONSOLE_PRINT` or `SMS` with
the target `ALL` or a contact the directory resolves. -/
theorem reachable_rules_valid (env : Env) (ops : List SystemOp) (Events : List Event)
    (h : runSystem env [] ops = some Events) : ∀ e ∈ Events, ruleValid env e :=
  runSystem_valid env ops [] Events (by simp) h

theorem reachable_rules_valid_witness :
    runSystem (sampleEnv (F64.fin 150)) []
        [SystemOp.add "Bitstamp" "PRICE" ">,100" "BTC" "USD" "CONSOLE_PRINT",
         SystemOp.add "Bitstamp" "PRICE" "~,10" "BTC" "USD" "CONSOLE_PRINT",
         SystemOp.add "Bitstamp" "PRICE" "<=,50" "BTC" "USD" "SMS,bob",
         SystemOp.cycle (sampleEnv (F64.fin 150)),
         SystemOp.remove 7]
      = some [sampleRule 0 ">,100" true,
          Event.mk 2 "Bitstamp" "PRICE" "<=,50" "BTC" "USD" "SMS,bob" false] ∧
    ∀ e ∈ [sampleRule 0 ">,100" true,
        Event.mk 2 "Bitstamp" "PRICE" "<=,50" "BTC" "USD" "SMS,bob" false],
      ruleValid (sampleEnv (F64.fin 150)) e :=
  ⟨by decide,
   reachable_rules_valid (sampleEnv (F64.fin 150))
    [SystemOp.add "Bitstamp" "PRICE" ">,100" "BTC" "USD" "CONSOLE_PRINT",
     SystemOp.add "Bitstamp" "PRICE" "~,10" "BTC" "USD" "CONSOLE_PRINT",
     SystemOp.add "Bitstamp" "PRICE" "<=,50" "BTC" "USD" "SMS,bob",
     SystemOp.cycle (sampleEnv (F64.fin 150)),
     SystemOp.remove 7] _ (by decide)⟩

/-- C15. No operation unsets the flag `Executed` of a rule that stays stored: `AddEvent`
leaves every stored rule in place, unchanged; the rules `RemoveEvent` keeps are the
rules before and after the removed one, unchanged; and a rule that is executed before
an evaluation cycle is the same rule, still executed, after it. -/
theorem Executed_never_unset (env feed : Env) (Events : List Event)
    (x i c f s a : String) (EventID : Int) :
    (∀ r, AddEvent env Events x i c f s a = some r →
      ∀ (j : Nat) (e : Event), Events[j]? = some e → r.2[j]? = some e) ∧
    ((RemoveEvent Events EventID).2 = Events ∨
      ∃ pre gone post, Events = pre ++ gone :: post ∧
        (RemoveEvent Events EventID).2 = pre ++ post) ∧
    (∀ (j : Nat) (e : Event), Events[j]? = some e → e.Executed = true →
      (CheckEventsCycle feed Events).Events[j]? = some e) := by
  refine ⟨?_, ?_, fun j e hj he => CheckEventsCycle_keep feed Events j e hj he⟩
  · intro r hr j e hj
    rcases AddEvent_cases env Events x i c f s a r hr with ⟨err, -, h2⟩ | ⟨-, h2⟩
    · subst h2
      exact hj
    · subst h2
      have hlt : j < Events.length := (List.getElem?_eq_some_iff.1 hj).1
      show (Events ++ _)[j]? = some e
      rw [List.getElem?_append_left hlt]
      exact hj
  · rw [RemoveEvent_eq]
    by_cases hany : Events.any (fun x => x.ID == EventID) = true
    · right
      have hex : ∃ e ∈ Events, e.ID = EventID := by simpa using hany
      obtain ⟨e, he, hid⟩ := hex
      obtain ⟨gone, pre, post, -, -, hsplit, herase⟩ :=
        List.exists_of_eraseP (p := fun x => x.ID == EventID) he (by simpa using hid)
      exact ⟨pre, gone, post, hsplit, by simp [hany, herase]⟩
    · left
      simp [hany]

theorem Executed_never_unset_witness :
    (CheckEventsCycle (sampleEnv (F64.fin 5))
      [sampleRule 0 ">,100" true, sampleRule 2 "<,100" false]).Events[0]? =
        some (sampleRule 0 ">,100" true) :=
  (Executed_never_unset (sampleEnv (F64.fin 5)) (sampleEnv (F64.fin 5))
    [sampleRule 0 ">,100" true, sampleRule 2 "<,100" false] "" "" "" "" "" "" 0).2.2
    0 (sampleRule 0 ">,100" true) rfl rfl

/-- C16. For a rule whose condition has a comma, with `op` and `thr` its first and second
tokens, `EventToString` returns exactly `If the ` + first currency + second currency +
` ` + item + ` on ` + exchange + ` is ` + `op` + ` ` + `thr` + ` then ` + action + `.`;
it only reads the rule. -/
theorem EventToString_format (e : Event) (h : StringContains e.Condition "," = true) :
    ∃ op thr, idx (SplitStrings e.Condition ",") 0 = some op ∧
      idx (SplitStrings e.Condition ",") 1 = some thr ∧
      EventToString e = some ("If the " ++ e.FirstCurrency ++ e.SecondCurrency ++ " " ++
        e.Item ++ " on " ++ e.Exchange ++ " is " ++ op ++ " " ++ thr ++ " then " ++
        e.Action ++ ".") := by
  obtain ⟨c0, c1, rest, hsplit⟩ := SplitStrings_of_contains _ h
  refine ⟨c0, c1, by rw [hsplit, idx_zero_cons], by rw [hsplit, idx_one_cons], ?_⟩
  simp only [EventToString, hsplit, idx_zero_cons, idx_one_cons, Option.some_bind,
    String.append_assoc]

theorem EventToString_format_witness :
    EventToString (Event.mk 3 "Bitstamp" "PRICE" ">=,100.5" "BTC" "USD" "SMS,bob" false) =
      some "If the BTCUSD PRICE on Bitstamp is >= 100.5 then SMS,bob." := by
  obtain ⟨op, thr, h0, h1, hs⟩ := EventToString_format
    (Event.mk 3 "Bitstamp" "PRICE" ">=,100.5" "BTC" "USD" "SMS,bob" false) (by decide)
  have e0 : idx (SplitStrings
      (Event.mk 3 "Bitstamp" "PRICE" ">=,100.5" "BTC" "USD" "SMS,bob" false).Condition ",") 0 =
      some ">=" := by decide
  have e1 : idx (SplitStrings
      (Event.mk 3 "Bitstamp" "PRICE" ">=,100.5" "BTC" "USD" "SMS,bob" false).Condition ",") 1 =
      some "100.5" := by decide
  rw [e0] at h0
  rw [e1] at h1
  cases h0
  cases h1
  rw [hs]
  decide

/-- C17. One evaluation cycle keeps the rules, their order and every field but `Executed`;
and on a registry whose pending rules all have an operator and a threshold it does not
panic, it enters `ExecuteAction` exactly for the rules that were not executed at the
start and whose condition matches the current price, once each and in registry order,
and afterwards a rule is executed exactly when it was executed before or its
condition matched. -/
theorem CheckEventsCycle_effect (env : Env) (Events : List Event) :
    ((CheckEventsCycle env Events).Events.length = Events.length ∧
      ∀ (j : Nat) (e : Event), Events[j]? = some e →
        ∃ e2, (CheckEventsCycle env Events).Events[j]? = some e2 ∧
          { e2 with Executed := e.Executed } = e) ∧
    ((∀ e ∈ Events, e.Executed = false → StringContains e.Condition "," = true) →
      (CheckEventsCycle env Events).panicked = false ∧
      dispatchOrder (CheckEventsCycle env Events).trace = pendingMatches env 0 Events ∧
      ∀ (j : Nat) (e : Event), Events[j]? = some e →
        ∃ e2, (CheckEventsCycle env Events).Events[j]? = some e2 ∧
          e2.Executed = (e.Executed || conditionMatches env e)) := by
  refine ⟨⟨CheckEventsCycle_length env Events, ?_⟩, ?_⟩
  · intro j e hj
    obtain ⟨e2, h2, hr⟩ := forall₂_getElem? _ _ _ (CheckEventsCycle_flagOnly env Events) j e hj
    exact ⟨e2, h2, flagOnly_fields e e2 hr⟩
  · intro hwf
    obtain ⟨h1, h2, h3⟩ := CheckEventsCycle_spec env Events hwf
    refine ⟨h1, h3, ?_⟩
    intro j e hj
    refine ⟨markExecuted env e, by rw [h2, List.getElem?_map, hj]; rfl, ?_⟩
    unfold markExecuted
    cases he : e.Executed <;> cases hm : conditionMatches env e <;> simp [he, hm]

theorem CheckEventsCycle_effect_witness :
    (CheckEventsCycle (sampleEnv (F64.fin 150))
      [sampleRule 0 ">,100" false, sampleRule 2 "<,100" false, sampleRule 3 ">=,50" true,
        sampleRule 4 ">=,50" false]).panicked = false ∧
    dispatchOrder (CheckEventsCycle (sampleEnv (F64.fin 150))
      [sampleRule 0 ">,100" false, sampleRule 2 "<,100" false, sampleRule 3 ">=,50" true,
        sampleRule 4 ">=,50" false]).trace = [0, 3] ∧
    (CheckEventsCycle (sampleEnv (F64.fin 150))
      [sampleRule 0 ">,100" false, sampleRule 2 "<,100" false, sampleRule 3 ">=,50" true,
        sampleRule 4 ">=,50" false]).Events =
      [sampleRule 0 ">,100" true, sampleRule 2 "<,100" false, sampleRule 3 ">=,50" true,
        sampleRule 4 ">=,50" true] := by
  have h := (CheckEventsCycle_effect (sampleEnv (F64.fin 150))
    [sampleRule 0 ">,100" false, sampleRule 2 "<,100" false, sampleRule 3 ">=,50" true,
      sampleRule 4 ">=,50" false]).2 (by decide)
  exact ⟨h.1, h.2.1.trans (by decide), by decide⟩

/-- C19. From the empty registry, a run of successful `AddEvent` calls returns the id 0
for the first call and the id `n` for the n-th call, `n >= 2`; the ids returned are
strictly increasing, pairwise distinct, and never 1. -/
theorem AddEvent_id_sequence (env : Env) (args : List AddArgs)
    (hok : ∀ a ∈ args, IsValidEvent env a.Exchange a.Item a.Condition a.Action = some none) :
    ∃ ids evs, addMany env [] args = some (ids, evs) ∧ ids.length = args.length ∧
      (∀ n : Nat, 1 ≤ n → n ≤ args.length →
        ids[n - 1]? = some (if n = 1 then (0 : Int) else (n : Int))) ∧
      ids.Pairwise (fun a b => a < b) ∧ ids.Nodup ∧ (1 : Int) ∉ ids := by
  obtain ⟨evs, h1, -⟩ := addMany_ids env args [] hok
  simp only [List.length_nil, Nat.zero_add] at h1
  refine ⟨_, evs, h1, by simp, ?_, ?_, ?_, ?_⟩
  · intro n hn1 hn2
    have hlt : n - 1 < args.length := by omega
    rw [List.getElem?_map, List.getElem?_range hlt]
    simp only [Option.map_some', Option.some.injEq, idAt]
    by_cases h : n = 1
    · subst h
      simp
    · have : n - 1 ≠ 0 := by omega
      simp only [this, h, if_false]
      omega
  · rw [List.pairwise_map]
    exact List.Pairwise.imp (fun hab => idAt_lt _ _ hab) (List.pairwise_lt_range _)
  · rw [List.nodup_map_iff_inj_on (List.nodup_range _)]
    intro a _ b _ hab
    by_contra hne
    rcases Nat.lt_or_gt_of_ne hne with hlt | hlt
    · exact absurd hab (ne_of_lt (idAt_lt _ _ hlt))
    · exact absurd hab.symm (ne_of_lt (idAt_lt _ _ hlt))
  · intro hmem
    obtain ⟨k, -, hk⟩ := List.mem_map.1 hmem
    exact idAt_ne_one k hk

theorem AddEvent_id_sequence_witness :
    ∃ ids evs, addMany (sampleEnv (F64.fin 150)) []
        [AddArgs.mk "Bitstamp" "PRICE" ">,100" "BTC" "USD" "CONSOLE_PRINT",
         AddArgs.mk "Bitstamp" "PRICE" "<,50" "BTC" "USD" "SMS,ALL",
         AddArgs.mk "Bitstamp" "PRICE" "==,200" "BTC" "USD" "SMS,bob"] = some (ids, evs) ∧
      ids = [0, 2, 3] := by
  obtain ⟨ids, evs, h, -, -, -, -, -⟩ := AddEvent_id_sequence (sampleEnv (F64.fin 150))
    [AddArgs.mk "Bitstamp" "PRICE" ">,100" "BTC" "USD" "CONSOLE_PRINT",
     AddArgs.mk "Bitstamp" "PRICE" "<,50" "BTC" "USD" "SMS,ALL",
     AddArgs.mk "Bitstamp" "PRICE" "==,200" "BTC" "USD" "SMS,bob"] (by decide)
  refine ⟨ids, evs, h, ?_⟩
  have h2 : (addMany (sampleEnv (F64.fin 150)) []
      [AddArgs.mk "Bitstamp" "PRICE" ">,100" "BTC" "USD" "CONSOLE_PRINT",
       AddArgs.mk "Bitstamp" "PRICE" "<,50" "BTC" "USD" "SMS,ALL",
       AddArgs.mk "Bitstamp" "PRICE" "==,200" "BTC" "USD" "SMS,bob"]).map Prod.fst =
      some [0, 2, 3] := by decide
  rw [h] at h2
  simpa using h2

/-- C20. For a rule whose exchange, item, condition and action pass `IsValidEvent`, the
condition splits into at least two tokens and so does an action that has a comma, so
`EventToString`, `CheckCondition` and `ExecuteAction` return a result (no index is out of
range) whatever the collaborators report; and no evaluation cycle over a registry
reached from the empty one by `AddEvent`, `RemoveEvent` and cycles ends in a panic. -/
theorem valid_rule_in_bounds (env : Env) (e : Event)
    (h : IsValidEvent env e.Exchange e.Item e.Condition e.Action = some none) :
    2 ≤ (SplitStrings e.Condition ",").length ∧
    (StringContains e.Action "," = true → 2 ≤ (SplitStrings e.Action ",").length) ∧
    (∃ s, EventToString e = some s) ∧
    (∀ feed : Env, (∃ r, CheckCondition feed e = some r) ∧
      (∃ r, ExecuteAction feed e = some r)) ∧
    (∀ (ops : List SystemOp) (Events : List Event) (feed : Env),
      runSystem env [] ops = some Events → (CheckEventsCycle feed Events).panicked = false) := by
  obtain ⟨-, -, ⟨c0, c1, rest, hsplit, -, -⟩, -⟩ :=
    IsValidEvent_ok env e.Exchange e.Item e.Condition e.Action h
  have hc := contains_of_split _ _ _ _ hsplit
  refine ⟨by rw [hsplit]; simp, ?_, EventToString_isSome e hc, ?_, ?_⟩
  · intro hA
    obtain ⟨a0, a1, more, hact⟩ := SplitStrings_of_contains _ hA
    rw [hact]
    simp
  · intro feed
    refine ⟨CheckCondition_isSome feed e hc, ?_⟩
    obtain ⟨tr, htr, -, -⟩ := ExecuteAction_spec feed e hc
    exact ⟨_, htr⟩
  · intro ops Events feed hrun
    have hv := runSystem_valid env ops [] Events (by simp) hrun
    exact (CheckEventsCycle_spec feed Events
      (fun x hx _ => ruleValid_contains env x (hv x hx))).1

theorem valid_rule_in_bounds_witness :
    (∃ s, EventToString (Event.mk 2 "Bitstamp" "PRICE" "<=,50" "ETH" "EUR" "SMS,bob" false)
      = some s) ∧
    (∃ r, CheckCondition emptyDirectoryEnv
      (Event.mk 2 "Bitstamp" "PRICE" "<=,50" "ETH" "EUR" "SMS,bob" false) = some r) ∧
    (∃ r, ExecuteAction emptyDirectoryEnv
      (Event.mk 2 "Bitstamp" "PRICE" "<=,50" "ETH" "EUR" "SMS,bob" false) = some r) :=
  ⟨(valid_rule_in_bounds (sampleEnv (F64.fin 150))
      (Event.mk 2 "Bitstamp" "PRICE" "<=,50" "ETH" "EUR" "SMS,bob" false) (by decide)).2.2.1,
   ((valid_rule_in_bounds (sampleEnv (F64.fin 150))
      (Event.mk 2 "Bitstamp" "PRICE" "<=,50" "ETH" "EUR" "SMS,bob" false)
      (by decide)).2.2.2.1 emptyDirectoryEnv).1,
   ((valid_rule_in_bounds (sampleEnv (F64.fin 150))
      (Event.mk 2 "Bitstamp" "PRICE" "<=,50" "ETH" "EUR" "SMS,bob" false)
      (by decide)).2.2.2.1 emptyDirectoryEnv).2⟩

end Events
